import Mathlib

/-!
Shallow embedding of the Signal/Shadow game server (socket.io backend).

JavaScript `Map`s (insertion-ordered, unique keys) are modelled as ordered
association lists; `Map.set` replaces in place when the key is present and
appends otherwise, `Map.delete` removes, iteration follows list order.
Randomness (`Math.random` in `generateRoomCode` and in the role / word-pair
choice of `startGame`) is passed in as an explicit parameter, so the step
relation quantifies over every possible outcome.

The server keeps two maps, `rooms` and `players`, whose values share object
references in JavaScript: a member entry of the room named by a player's
`room` field is the very object stored in the index (both maps receive the
same object on create/join/startGame/playerReady, and `room` is never
mutated on an existing object).  The embedding renders each handler's
mutations on both maps: where the source mutates objects reached from
`room.players` (`calculateResults`, `nextRound`), the update is propagated
to the index entries that alias them (`syncIndex`: exactly the entries
whose `room` field names this room); where it mutates the object fetched
from the index (`playerReady`), the update is written to both maps.
-/

namespace SignalShadow

/-- `Map.get`: first entry with the key, if any. -/
def mget {α : Type} (m : List (String × α)) (k : String) : Option α :=
  (m.find? (fun e => e.1 = k)).map (fun e => e.2)

/-- `Map.set`: replace in place when present, append otherwise. -/
def mset {α : Type} (m : List (String × α)) (k : String) (v : α) :
    List (String × α) :=
  if (m.find? (fun e => e.1 = k)).isSome then
    m.map (fun e => if e.1 = k then (k, v) else e)
  else m ++ [(k, v)]

/-- `Map.delete`. -/
def mdel {α : Type} (m : List (String × α)) (k : String) :
    List (String × α) :=
  m.filter (fun e => ¬ e.1 = k)

/-- `Set.add`: append unless already present. -/
def sadd (s : List String) (k : String) : List String :=
  if k ∈ s then s else s ++ [k]

inductive Role where
  | shadow
  | signal
deriving DecidableEq, Repr

inductive GamePhase where
  | lobby
  | assigning
  | discussion
  | results
deriving DecidableEq, Repr

structure Player where
  id : String
  name : String
  room : String
  role : Option Role
  word : Option String
  isReady : Bool
  score : Nat
deriving DecidableEq, Repr

structure WordPair where
  shadow : String
  signal : String
deriving DecidableEq, Repr

def WORD_PAIRS : List WordPair :=
  [⟨"Vampire", "Garlic"⟩,
   ⟨"Alien", "Spaceship"⟩,
   ⟨"Impostor", "Crewmate"⟩,
   ⟨"Werewolf", "Silver"⟩,
   ⟨"Robot", "Human"⟩,
   ⟨"Ghost", "SÃ©ance"⟩,
   ⟨"Spy", "Password"⟩,
   ⟨"Doppelganger", "Mirror"⟩]

structure RoundResults where
  eliminatedPlayerId : Option String
  shadowCaught : Bool
  voteCount : List (String × Nat)
deriving DecidableEq, Repr

structure Room where
  code : String
  players : List (String × Player)
  gameState : GamePhase
  round : Nat
  maxPlayers : Nat
  hostId : String
  wordPair : Option WordPair
  votes : List (String × String)
  revealedPlayers : List String
  results : Option RoundResults
deriving DecidableEq, Repr

structure ServerState where
  rooms : List (String × Room)
  players : List (String × Player)
deriving DecidableEq, Repr

def emptyState : ServerState := ⟨[], []⟩

def freshPlayer (sid playerName roomCode : String) : Player :=
  ⟨sid, playerName, roomCode, none, none, false, 0⟩

/-- `createRoom` handler; `roomCode` is the outcome of `generateRoomCode()`. -/
def createRoomOp (st : ServerState) (sid playerName roomCode : String) :
    ServerState :=
  let p := freshPlayer sid playerName roomCode
  let room : Room :=
    ⟨roomCode, [(sid, p)], .lobby, 1, 6, sid, none, [], [], none⟩
  ⟨mset st.rooms roomCode room, mset st.players sid p⟩

inductive JoinError where
  | roomNotFound
  | roomFull
  | gameInProgress
deriving DecidableEq, Repr

/-- `joinRoom` handler: the new state together with the error event, if any. -/
def joinRoomOp (st : ServerState) (sid roomCode playerName : String) :
    ServerState × Option JoinError :=
  match mget st.rooms roomCode with
  | none => (st, some .roomNotFound)
  | some room =>
    if room.players.length ≥ room.maxPlayers then (st, some .roomFull)
    else if ¬ room.gameState = .lobby then (st, some .gameInProgress)
    else
      let p := freshPlayer sid playerName roomCode
      let room' := { room with players := mset room.players sid p }
      (⟨mset st.rooms roomCode room', mset st.players sid p⟩, none)

def shadowify (wp : WordPair) (e : String × Player) : String × Player :=
  (e.1, { e.2 with role := some .shadow, word := some wp.shadow,
                   isReady := false })

def signalify (wp : WordPair) (e : String × Player) : String × Player :=
  (e.1, { e.2 with role := some .signal, word := some wp.signal,
                   isReady := false })

/-- The `forEach` of `startGame`: entry at position `si - i` becomes the
shadow, all others the signal. -/
def assignRolesAux (ps : List (String × Player)) (i si : Nat)
    (wp : WordPair) : List (String × Player) :=
  match ps with
  | [] => []
  | e :: rest =>
    (if i = si then shadowify wp e else signalify wp e)
      :: assignRolesAux rest (i + 1) si wp

def assignRoles (ps : List (String × Player)) (si : Nat) (wp : WordPair) :
    List (String × Player) :=
  assignRolesAux ps 0 si wp

/-- `startGame` handler; `si` is `Math.floor(Math.random()*players.length)`
and `pi` is `Math.floor(Math.random()*WORD_PAIRS.length)`. -/
def startGameOp (st : ServerState) (sid : String) (si pi : Nat) :
    ServerState :=
  match mget st.players sid with
  | none => st
  | some player =>
    match mget st.rooms player.room with
    | none => st
    | some room =>
      if ¬ room.hostId = sid then st
      else
        let wp := WORD_PAIRS.getD pi ⟨"", ""⟩
        let newPlayers := assignRoles room.players si wp
        let room' := { room with wordPair := some wp,
                                 gameState := .assigning,
                                 players := newPlayers }
        ⟨mset st.rooms player.room room',
         newPlayers.foldl (fun g e => mset g e.1 e.2) st.players⟩

/-- `playerReady` handler. -/
def playerReadyOp (st : ServerState) (sid : String) : ServerState :=
  match mget st.players sid with
  | none => st
  | some player =>
    match mget st.rooms player.room with
    | none => st
    | some room =>
      let p' := { player with isReady := true }
      let roomPlayers' := mset room.players sid p'
      let room' :=
        if roomPlayers'.all (fun e => e.2.isReady) then
          { room with players := roomPlayers', gameState := .discussion,
                      votes := [] }
        else { room with players := roomPlayers' }
      ⟨mset st.rooms player.room room', mset st.players sid p'⟩

/-- Vote counting of `calculateResults`: `voteCount.set(t, (get t || 0)+1)`
over the votes in insertion order. -/
def buildVoteCount (votes : List (String × String)) : List (String × Nat) :=
  votes.foldl (fun acc v => mset acc v.2 ((mget acc v.2).getD 0 + 1)) []

/-- The max-vote scan of `calculateResults`: strict `>` against the running
maximum, starting from `(0, null)`. -/
def findEliminated (voteCount : List (String × Nat)) : Nat × Option String :=
  voteCount.foldl
    (fun acc e => if e.2 > acc.1 then (e.2, some e.1) else acc) (0, none)

def scoreUpd (shadowCaught : Bool) (p : Player) : Player :=
  if shadowCaught ∧ p.role = some .signal then { p with score := p.score + 100 }
  else if ¬ shadowCaught ∧ p.role = some .shadow then
    { p with score := p.score + 200 }
  else p

/-- `calculateResults(room)`. -/
def calculateResults (room : Room) : Room :=
  let voteCount := buildVoteCount room.votes
  let eliminatedPlayerId := (findEliminated voteCount).2
  let shadowCaught : Bool :=
    match eliminatedPlayerId with
    | none => false
    | some eid =>
      match mget room.players eid with
      | none => false
      | some p => p.role = some .shadow
  { room with
      players := room.players.map (fun e => (e.1, scoreUpd shadowCaught e.2)),
      results := some ⟨eliminatedPlayerId, shadowCaught, voteCount⟩ }

/-- New value of an index entry after the members of room `roomCode` were
mutated in place: entries aliasing a member object see the update. -/
def syncVal (ps : List (String × Player)) (roomCode : String) (k : String)
    (v : Player) : Player :=
  if v.room = roomCode then
    match mget ps k with
    | some v' => v'
    | none => v
  else v

/-- Propagation of in-place mutations of a room's member objects to the
index entries aliasing them: the index entry of a key whose `room` field
names this room is that room's member object. -/
def syncIndex (g : List (String × Player)) (roomCode : String)
    (ps : List (String × Player)) : List (String × Player) :=
  g.map (fun e => (e.1, syncVal ps roomCode e.1 e.2))

/-- `submitVote` handler. -/
def submitVoteOp (st : ServerState) (sid targetId : String) : ServerState :=
  match mget st.players sid with
  | none => st
  | some player =>
    match mget st.rooms player.room with
    | none => st
    | some room =>
      if ¬ room.gameState = .discussion then st
      else
        let votes' := mset room.votes sid targetId
        if votes'.length = room.players.length then
          let room' := calculateResults
            { room with votes := votes', gameState := .results }
          ⟨mset st.rooms player.room room',
           syncIndex st.players player.room room'.players⟩
        else
          ⟨mset st.rooms player.room { room with votes := votes' },
           st.players⟩

/-- The per-member reset of `nextRound`: role, word and readiness are
cleared, the score is kept. -/
def resetPlayer (p : Player) : Player :=
  { p with role := none, word := none, isReady := false }

/-- `nextRound` handler. -/
def nextRoundOp (st : ServerState) (sid : String) : ServerState :=
  match mget st.players sid with
  | none => st
  | some player =>
    match mget st.rooms player.room with
    | none => st
    | some room =>
      if ¬ room.hostId = sid then st
      else
        let players' := room.players.map (fun e => (e.1, resetPlayer e.2))
        ⟨mset st.rooms player.room
          { room with
              round := room.round + 1,
              gameState := .lobby,
              revealedPlayers := [],
              votes := [],
              players := players' },
         syncIndex st.players player.room players'⟩

/-- `revealRole` handler. -/
def revealRoleOp (st : ServerState) (sid targetId : String) : ServerState :=
  match mget st.players sid with
  | none => st
  | some player =>
    match mget st.rooms player.room with
    | none => st
    | some room =>
      if ¬ room.hostId = sid then st
      else
        ⟨mset st.rooms player.room
          { room with revealedPlayers := sadd room.revealedPlayers targetId },
         st.players⟩

/-- `leaveRoom` handler. -/
def leaveRoomOp (st : ServerState) (sid : String) : ServerState :=
  match mget st.players sid with
  | none => st
  | some player =>
    match mget st.rooms player.room with
    | none => st
    | some room =>
      let roomPlayers' := mdel room.players sid
      let players' := mdel st.players sid
      if roomPlayers'.length = 0 then
        ⟨mdel st.rooms player.room, players'⟩
      else
        let newHost :=
          match roomPlayers'.head? with
          | some e => e.1
          | none => room.hostId
        ⟨mset st.rooms player.room
          { room with players := roomPlayers',
                      hostId := if room.hostId = sid then newHost
                                else room.hostId },
         players'⟩

/-- `disconnect` handler (its own copy of the departure logic). -/
def disconnectOp (st : ServerState) (sid : String) : ServerState :=
  match mget st.players sid with
  | none => st
  | some player =>
    match mget st.rooms player.room with
    | none => st
    | some room =>
      let roomPlayers' := mdel room.players sid
      let players' := mdel st.players sid
      if roomPlayers'.length = 0 then
        ⟨mdel st.rooms player.room, players'⟩
      else
        let newHost :=
          match roomPlayers'.head? with
          | some e => e.1
          | none => room.hostId
        ⟨mset st.rooms player.room
          { room with players := roomPlayers',
                      hostId := if room.hostId = sid then newHost
                                else room.hostId },
         players'⟩

structure PlayerView where
  id : String
  name : String
  isReady : Bool
  score : Nat
  role : Option Role
  word : Option String
deriving DecidableEq, Repr

structure RoomView where
  code : String
  players : List PlayerView
  gameState : GamePhase
  round : Nat
  maxPlayers : Nat
  hostId : String
  wordPair : Option WordPair
  votes : Nat
  revealedPlayers : List String
deriving DecidableEq, Repr

/-- `getRoomData(roomCode)`: the externally visible snapshot projection.
`votes` is emitted as `room.votes.size` only. -/
def getRoomData (st : ServerState) (roomCode : String) : Option RoomView :=
  match mget st.rooms roomCode with
  | none => none
  | some room =>
    some
      { code := room.code,
        players := room.players.map (fun e =>
          { id := e.2.id, name := e.2.name, isReady := e.2.isReady,
            score := e.2.score,
            role :=
              if room.gameState = .results ∨ e.2.id ∈ room.revealedPlayers
              then e.2.role else none,
            word :=
              if room.gameState = .results ∨ e.2.id ∈ room.revealedPlayers
              then e.2.word else none }),
        gameState := room.gameState,
        round := room.round,
        maxPlayers := room.maxPlayers,
        hostId := room.hostId,
        wordPair := if room.gameState = .results then room.wordPair else none,
        votes := room.votes.length,
        revealedPlayers := room.revealedPlayers }

/-- Number of members in the caller's room (0 when caller or room absent);
bounds the random shadow index of `startGame`. -/
def roomSizeOf (st : ServerState) (sid : String) : Nat :=
  match mget st.players sid with
  | none => 0
  | some p =>
    match mget st.rooms p.room with
    | none => 0
    | some room => room.players.length

/-- One client-initiated event, with every random outcome allowed. -/
inductive Step : ServerState → ServerState → Prop where
  | createRoom (st : ServerState) (sid playerName roomCode : String) :
      Step st (createRoomOp st sid playerName roomCode)
  | joinRoom (st : ServerState) (sid roomCode playerName : String) :
      Step st (joinRoomOp st sid roomCode playerName).1
  | startGame (st : ServerState) (sid : String) (si pi : Nat)
      (hsi : si < max 1 (roomSizeOf st sid))
      (hpi : pi < WORD_PAIRS.length) :
      Step st (startGameOp st sid si pi)
  | playerReady (st : ServerState) (sid : String) :
      Step st (playerReadyOp st sid)
  | submitVote (st : ServerState) (sid targetId : String) :
      Step st (submitVoteOp st sid targetId)
  | nextRound (st : ServerState) (sid : String) :
      Step st (nextRoundOp st sid)
  | revealRole (st : ServerState) (sid targetId : String) :
      Step st (revealRoleOp st sid targetId)
  | leaveRoom (st : ServerState) (sid : String) :
      Step st (leaveRoomOp st sid)
  | disconnect (st : ServerState) (sid : String) :
      Step st (disconnectOp st sid)

inductive Reachable : ServerState → Prop where
  | init : Reachable emptyState
  | step {s s' : ServerState} : Reachable s → Step s s' → Reachable s'

/-- The non-membership-changing events: every client event except
`createRoom` and `joinRoom`. -/
inductive NonJoinStep : ServerState → ServerState → Prop where
  | startGame (st : ServerState) (sid : String) (si pi : Nat)
      (hsi : si < max 1 (roomSizeOf st sid))
      (hpi : pi < WORD_PAIRS.length) :
      NonJoinStep st (startGameOp st sid si pi)
  | playerReady (st : ServerState) (sid : String) :
      NonJoinStep st (playerReadyOp st sid)
  | submitVote (st : ServerState) (sid targetId : String) :
      NonJoinStep st (submitVoteOp st sid targetId)
  | nextRound (st : ServerState) (sid : String) :
      NonJoinStep st (nextRoundOp st sid)
  | revealRole (st : ServerState) (sid targetId : String) :
      NonJoinStep st (revealRoleOp st sid targetId)
  | leaveRoom (st : ServerState) (sid : String) :
      NonJoinStep st (leaveRoomOp st sid)
  | disconnect (st : ServerState) (sid : String) :
      NonJoinStep st (disconnectOp st sid)

/-- Keys of an association list are distinct. -/
def keysND {α : Type} (m : List (String × α)) : Prop :=
  (m.map (fun e => e.1)).Nodup

/-- Structural invariant of reachable states: each room's member map has
distinct keys, member objects carry their room's code in `room`, and the
index entry of a key equals the member object of the room its `room` field
names (the JavaScript aliasing). -/
def StInv (st : ServerState) : Prop :=
  (∀ code room, mget st.rooms code = some room →
    keysND room.players ∧
    ∀ k q, mget room.players k = some q → q.room = code) ∧
  (∀ k gp, mget st.players k = some gp →
    ∀ room, mget st.rooms gp.room = some room →
      ∀ q, mget room.players k = some q → q = gp)

/-- Member scores never drop from `st` to `st'`. -/
def scoresMono (st st' : ServerState) : Prop :=
  ∀ code room room' sid p p',
    mget st.rooms code = some room → mget st'.rooms code = some room' →
    mget room.players sid = some p → mget room'.players sid = some p' →
    p.score ≤ p'.score

/-! ### Concrete execution traces used in witnesses and counterexamples -/

def exS1 : ServerState := createRoomOp emptyState "h" "Hana" "ROOM01"
def exS2 : ServerState := (joinRoomOp exS1 "b" "ROOM01" "Bo").1
def exS3 : ServerState := (joinRoomOp exS2 "c" "ROOM01" "Cy").1
def exS4 : ServerState := startGameOp exS3 "h" 0 0
def exS5 : ServerState := playerReadyOp exS4 "h"
def exS6 : ServerState := playerReadyOp exS5 "b"
def exS7 : ServerState := playerReadyOp exS6 "c"
def exS8 : ServerState := submitVoteOp exS7 "h" "b"
def exS9 : ServerState := submitVoteOp exS8 "b" "b"
def exS10 : ServerState := submitVoteOp exS9 "c" "c"
def exS11 : ServerState := nextRoundOp exS10 "h"
def exS12 : ServerState := (joinRoomOp exS11 "h" "ROOM01" "Hana").1

def exLeave : ServerState := leaveRoomOp exS4 "h"

def c3S1 : ServerState := createRoomOp emptyState "alice" "Alice" "AAAAAA"
def c3S2 : ServerState := createRoomOp c3S1 "bob" "Bob" "AAAAAA"

def c4Room : Room :=
  ⟨"TALLY1",
   [("a", ⟨"a", "Ann", "TALLY1", some .shadow, some "Vampire", false, 0⟩),
    ("b", ⟨"b", "Ben", "TALLY1", some .signal, some "Garlic", false, 0⟩),
    ("c", ⟨"c", "Cam", "TALLY1", some .signal, some "Garlic", false, 0⟩)],
   .results, 1, 6, "a", some ⟨"Vampire", "Garlic"⟩,
   [("a", "b"), ("b", "b"), ("c", "a")], [], none⟩

def bS1 : ServerState := createRoomOp emptyState "h" "Hana" "CLASH1"
def bS2 : ServerState := (joinRoomOp bS1 "p2" "CLASH1" "P2").1
def bS3 : ServerState := (joinRoomOp bS2 "p3" "CLASH1" "P3").1
def bS4 : ServerState := (joinRoomOp bS3 "p4" "CLASH1" "P4").1
def bS5 : ServerState := (joinRoomOp bS4 "p5" "CLASH1" "P5").1
def bS6 : ServerState := (joinRoomOp bS5 "p6" "CLASH1" "P6").1
def bS7 : ServerState := createRoomOp bS6 "x" "Xan" "CLASH1"
def bS8 : ServerState := (joinRoomOp bS7 "q2" "CLASH1" "Q2").1
def bS9 : ServerState := (joinRoomOp bS8 "q3" "CLASH1" "Q3").1
def bS10 : ServerState := (joinRoomOp bS9 "q4" "CLASH1" "Q4").1
def bS11 : ServerState := (joinRoomOp bS10 "q5" "CLASH1" "Q5").1
def bS12 : ServerState := (joinRoomOp bS11 "q6" "CLASH1" "Q6").1
def bS13 : ServerState := playerReadyOp bS12 "h"

/-! ### Lemmas about the map model -/

theorem mget_nil {α : Type} (k : String) :
    mget ([] : List (String × α)) k = none := rfl

theorem mget_cons {α : Type} (e : String × α) (m : List (String × α))
    (k : String) :
    mget (e :: m) k = if e.1 = k then some e.2 else mget m k := by
  by_cases h : e.1 = k <;> simp [mget, h]

theorem mget_append {α : Type} (m m' : List (String × α)) (k : String) :
    mget (m ++ m') k = (mget m k).or (mget m' k) := by
  simp only [mget, List.find?_append]
  cases m.find? (fun e => e.1 = k) <;> simp

theorem mget_isSome_of_find? {α : Type} (m : List (String × α)) (k : String) :
    (m.find? (fun e => e.1 = k)).isSome = (mget m k).isSome := by
  simp only [mget]
  cases m.find? (fun e => e.1 = k) <;> simp

theorem mget_replaceMap {α : Type} (m : List (String × α)) (k k' : String)
    (v : α) :
    mget (m.map (fun e => if e.1 = k then (k, v) else e)) k'
      = if k' = k then (mget m k).map (fun _ => v) else mget m k' := by
  induction m with
  | nil => by_cases h : k' = k <;> simp [mget_nil, h]
  | cons e rest ih =>
    by_cases he : e.1 = k
    · by_cases hk : k' = k
      · subst hk
        simp [mget_cons, he, if_pos he]
      · have h1 : ¬ k = k' := Ne.symm hk
        have h2 : ¬ e.1 = k' := fun h => hk (h.symm.trans he)
        simp [mget_cons, he, hk, h1, h2, ih]
    · by_cases he' : e.1 = k'
      · have hk : ¬ k' = k := fun h => he (he'.trans h)
        simp [mget_cons, he, he', hk]
      · simp [mget_cons, he, he', ih]

theorem mget_mset {α : Type} (m : List (String × α)) (k k' : String) (v : α) :
    mget (mset m k v) k' = if k' = k then some v else mget m k' := by
  unfold mset
  by_cases hf : (m.find? (fun e => e.1 = k)).isSome
  · rw [if_pos hf, mget_replaceMap]
    have hsome : (mget m k).isSome := by rw [← mget_isSome_of_find?]; exact hf
    by_cases hk : k' = k
    · rw [if_pos hk, if_pos hk]
      cases h : mget m k with
      | none => rw [h] at hsome; simp at hsome
      | some w => simp
    · rw [if_neg hk, if_neg hk]
  · rw [if_neg hf, mget_append]
    have hnone : mget m k = none := by
      cases h : mget m k with
      | none => rfl
      | some w =>
        rw [mget_isSome_of_find?, h] at hf
        simp at hf
    by_cases hk : k' = k
    · subst hk
      simp [hnone, mget_cons]
    · have h1 : ¬ k = k' := Ne.symm hk
      cases h : mget m k' <;> simp [h, mget_cons, mget_nil, hk, h1]

theorem mget_mset_self {α : Type} (m : List (String × α)) (k : String)
    (v : α) : mget (mset m k v) k = some v := by
  simp [mget_mset]

theorem mget_mset_ne {α : Type} (m : List (String × α)) (k k' : String)
    (v : α) (h : ¬ k' = k) : mget (mset m k v) k' = mget m k' := by
  simp [mget_mset, h]

theorem mget_mdel {α : Type} (m : List (String × α)) (k k' : String) :
    mget (mdel m k) k' = if k' = k then none else mget m k' := by
  induction m with
  | nil => by_cases h : k' = k <;> simp [mdel, mget_nil, h]
  | cons e rest ih =>
    simp only [mdel, List.filter_cons] at *
    by_cases he : e.1 = k
    · rw [if_neg (by simp [he])]
      rw [ih]
      by_cases hk : k' = k
      · rw [if_pos hk, if_pos hk]
      · rw [if_neg hk, if_neg hk, mget_cons,
          if_neg (fun h : e.1 = k' => hk ((h.symm.trans he)))]
    · rw [if_pos (by simp [he])]
      rw [mget_cons]
      by_cases he' : e.1 = k'
      · have hk : ¬ k' = k := fun h => he (he'.trans h)
        rw [if_pos he', if_neg hk, mget_cons, if_pos he']
      · rw [if_neg he', ih, mget_cons, if_neg he']

theorem mget_mapVal {α β : Type} (f : α → β) (m : List (String × α))
    (k : String) :
    mget (m.map (fun e => (e.1, f e.2))) k = (mget m k).map f := by
  induction m with
  | nil => rfl
  | cons e rest ih =>
    by_cases he : e.1 = k <;> simp [mget_cons, he, ih]

theorem mset_length {α : Type} (m : List (String × α)) (k : String) (v : α) :
    (mset m k v).length
      = if (mget m k).isSome then m.length else m.length + 1 := by
  unfold mset
  rw [mget_isSome_of_find?]
  by_cases hf : (mget m k).isSome
  · rw [if_pos hf, if_pos hf, List.length_map]
  · rw [if_neg hf, if_neg hf, List.length_append, List.length_cons,
      List.length_nil]

theorem mset_ne_nil {α : Type} (m : List (String × α)) (k : String) (v : α) :
    ¬ mset m k v = [] := by
  unfold mset
  by_cases hf : (m.find? (fun e => e.1 = k)).isSome
  · rw [if_pos hf]
    intro h
    rw [List.map_eq_nil_iff] at h
    subst h
    simp at hf
  · rw [if_neg hf]
    intro h
    exact absurd (congrArg List.length h) (by simp)

theorem mem_mset {α : Type} {m : List (String × α)} {k : String} {v : α}
    {x : String × α} (hx : x ∈ mset m k v) : x ∈ m ∨ x = (k, v) := by
  unfold mset at hx
  by_cases hf : (m.find? (fun e => e.1 = k)).isSome
  · rw [if_pos hf] at hx
    rcases List.mem_map.mp hx with ⟨e, he, heq⟩
    by_cases hek : e.1 = k
    · right
      rw [if_pos hek] at heq
      exact heq.symm
    · left
      rw [if_neg hek] at heq
      exact heq ▸ he
  · rw [if_neg hf] at hx
    rcases List.mem_append.mp hx with h | h
    · exact Or.inl h
    · right
      simpa using h

theorem mdel_length_lt {α : Type} (m : List (String × α)) (k : String)
    (h : (mget m k).isSome) : (mdel m k).length < m.length := by
  apply List.length_filter_lt_length_iff_exists.mpr
  rw [← mget_isSome_of_find?] at h
  rcases Option.isSome_iff_exists.mp h with ⟨e, he⟩
  have hmem := List.mem_of_find?_eq_some he
  have hp := List.find?_some he
  exact ⟨e, hmem, by simpa using hp⟩

theorem mdel_length_le {α : Type} (m : List (String × α)) (k : String) :
    (mdel m k).length ≤ m.length :=
  List.length_filter_le _ m

theorem mget_mapDep {α : Type} (f : String → α → α) (m : List (String × α))
    (k : String) :
    mget (m.map (fun e => (e.1, f e.1 e.2))) k = (mget m k).map (f k) := by
  induction m with
  | nil => rfl
  | cons e rest ih =>
    by_cases he : e.1 = k
    · subst he
      simp [mget_cons]
    · simp [mget_cons, he, ih]

theorem mget_syncIndex (g : List (String × Player)) (roomCode : String)
    (ps : List (String × Player)) (k : String) :
    mget (syncIndex g roomCode ps) k = (mget g k).map (syncVal ps roomCode k) :=
  mget_mapDep (syncVal ps roomCode) g k

theorem mget_eq_none_iff {α : Type} (m : List (String × α)) (k : String) :
    mget m k = none ↔ ¬ k ∈ m.map (fun e => e.1) := by
  constructor
  · intro h hk
    rcases List.mem_map.mp hk with ⟨e, he, hek⟩
    simp only [mget] at h
    cases hf : m.find? (fun e => e.1 = k) with
    | some w => rw [hf] at h; simp at h
    | none =>
      have := List.find?_eq_none.mp hf e he
      simp [hek] at this
  · intro hk
    simp only [mget]
    have : m.find? (fun e => e.1 = k) = none := by
      apply List.find?_eq_none.mpr
      intro x hx
      simp only [decide_eq_true_eq]
      intro hxk
      exact hk (List.mem_map.mpr ⟨x, hx, hxk⟩)
    rw [this]
    rfl

theorem keys_mset_present {α : Type} (m : List (String × α)) (k : String)
    (v : α) (h : (m.find? (fun e => e.1 = k)).isSome) :
    (mset m k v).map (fun e => e.1) = m.map (fun e => e.1) := by
  unfold mset
  rw [if_pos h, List.map_map]
  apply List.map_congr_left
  intro e _
  by_cases he : e.1 = k
  · simp [he]
  · simp [he]

theorem keysND_mset {α : Type} (m : List (String × α)) (k : String) (v : α)
    (h : keysND m) : keysND (mset m k v) := by
  unfold keysND at *
  by_cases hf : (m.find? (fun e => e.1 = k)).isSome
  · rw [keys_mset_present m k v hf]
    exact h
  · unfold mset
    rw [if_neg hf, List.map_append]
    rw [List.nodup_append]
    refine ⟨h, List.nodup_singleton _, ?_⟩
    intro a ha hb
    simp only [List.map_cons, List.map_nil, List.mem_singleton] at hb
    rw [hb] at ha
    have : mget m k = none := by
      cases hg : mget m k with
      | none => rfl
      | some w => rw [mget_isSome_of_find?, hg] at hf; simp at hf
    exact (mget_eq_none_iff m k).mp this ha

theorem keysND_mdel {α : Type} (m : List (String × α)) (k : String)
    (h : keysND m) : keysND (mdel m k) := by
  unfold keysND at *
  exact ((List.filter_sublist m).map (fun e => e.1)).nodup h

theorem keysND_mapDep {α : Type} (f : String → α → α)
    (m : List (String × α)) (h : keysND m) :
    keysND (m.map (fun e => (e.1, f e.1 e.2))) := by
  unfold keysND at *
  rw [List.map_map]
  exact h

theorem mget_foldl_mset {α : Type} (l : List (String × α))
    (g : List (String × α)) (k : String) (hnd : keysND l) :
    mget (l.foldl (fun acc e => mset acc e.1 e.2) g) k
      = (mget l k).or (mget g k) := by
  induction l generalizing g with
  | nil => simp [mget_nil]
  | cons e rest ih =>
    have hnd' : keysND rest ∧ ¬ e.1 ∈ rest.map (fun x => x.1) := by
      unfold keysND at hnd ⊢
      rw [List.map_cons, List.nodup_cons] at hnd
      exact ⟨hnd.2, hnd.1⟩
    rw [List.foldl_cons, ih (mset g e.1 e.2) hnd'.1, mget_cons]
    by_cases hk : e.1 = k
    · subst hk
      have : mget rest e.1 = none := (mget_eq_none_iff rest e.1).mpr hnd'.2
      simp [this, mget_mset_self]
    · rw [if_neg hk, mget_mset_ne g e.1 k e.2 (fun h => hk h.symm)]

/-! ### Lemmas about role assignment -/

theorem assignRolesAux_length (ps : List (String × Player)) (i si : Nat)
    (wp : WordPair) : (assignRolesAux ps i si wp).length = ps.length := by
  induction ps generalizing i with
  | nil => rfl
  | cons e rest ih => simp [assignRolesAux, ih]

theorem assignRolesAux_keys (ps : List (String × Player)) (i si : Nat)
    (wp : WordPair) :
    (assignRolesAux ps i si wp).map (fun e => e.1)
      = ps.map (fun e => e.1) := by
  induction ps generalizing i with
  | nil => rfl
  | cons e rest ih =>
    simp only [assignRolesAux, List.map_cons, ih]
    congr 1
    by_cases h : i = si <;> simp [h, shadowify, signalify]

theorem assignRolesAux_getElem? (ps : List (String × Player)) (i si : Nat)
    (wp : WordPair) (j : Nat) :
    (assignRolesAux ps i si wp)[j]? = (ps[j]?).map
      (fun e => if i + j = si then shadowify wp e else signalify wp e) := by
  induction ps generalizing i j with
  | nil => simp [assignRolesAux]
  | cons e rest ih =>
    cases j with
    | zero => simp [assignRolesAux]
    | succ j =>
      simp only [assignRolesAux, List.getElem?_cons_succ]
      rw [ih (i + 1) j]
      have hidx : i + 1 + j = i + (j + 1) := by omega
      rw [hidx]

theorem assignRolesAux_shadowCount (ps : List (String × Player)) (i si : Nat)
    (wp : WordPair) :
    (assignRolesAux ps i si wp).countP
        (fun e => e.2.role = some Role.shadow)
      = if i ≤ si ∧ si < i + ps.length then 1 else 0 := by
  induction ps generalizing i with
  | nil =>
    simp only [assignRolesAux, List.countP_nil, List.length_nil]
    rw [if_neg (by omega)]
  | cons e rest ih =>
    simp only [assignRolesAux, List.countP_cons, ih (i + 1), List.length_cons]
    by_cases h : i = si
    · rw [if_pos h]
      have hone : (if decide ((shadowify wp e).2.role = some Role.shadow)
            = true then 1 else 0) = 1 := by simp [shadowify]
      rw [hone]
      split_ifs <;> omega
    · rw [if_neg h]
      have hzero : (if decide ((signalify wp e).2.role = some Role.shadow)
            = true then 1 else 0) = 0 := by simp [signalify]
      rw [hzero]
      split_ifs <;> omega

theorem assignRolesAux_mget_score (ps : List (String × Player)) (i si : Nat)
    (wp : WordPair) (k : String) :
    (mget (assignRolesAux ps i si wp) k).map (fun p => p.score)
      = (mget ps k).map (fun p => p.score) := by
  induction ps generalizing i with
  | nil => rfl
  | cons e rest ih =>
    simp only [assignRolesAux]
    have h1 : (if i = si then shadowify wp e else signalify wp e).1
        = e.1 := by
      by_cases hc : i = si <;> simp [hc, shadowify, signalify]
    have h2 : (if i = si then shadowify wp e else signalify wp e).2.score
        = e.2.score := by
      by_cases hc : i = si <;> simp [hc, shadowify, signalify]
    rw [mget_cons, mget_cons, h1]
    by_cases he : e.1 = k
    · simp [he, h2]
    · simp [he, ih]

/-! ### Lemmas about vote counting and the elimination scan -/

theorem buildVoteCount_pos_aux (vs : List (String × String))
    (acc : List (String × Nat)) (hacc : ∀ x ∈ acc, 1 ≤ x.2) :
    ∀ x ∈ vs.foldl
        (fun acc v => mset acc v.2 ((mget acc v.2).getD 0 + 1)) acc,
      1 ≤ x.2 := by
  induction vs generalizing acc with
  | nil => exact hacc
  | cons v rest ih =>
    intro x hx
    refine ih _ ?_ x hx
    intro y hy
    rcases mem_mset hy with h | h
    · exact hacc y h
    · rw [h]
      simp

theorem buildVoteCount_pos (vs : List (String × String)) :
    ∀ x ∈ buildVoteCount vs, 1 ≤ x.2 :=
  buildVoteCount_pos_aux vs [] (by intro x hx; simp at hx)

theorem foldl_mset_ne_nil (vs : List (String × String))
    (acc : List (String × Nat)) (hacc : ¬ acc = []) :
    ¬ vs.foldl (fun acc v => mset acc v.2 ((mget acc v.2).getD 0 + 1)) acc
        = [] := by
  induction vs generalizing acc with
  | nil => exact hacc
  | cons v rest ih => exact ih _ (mset_ne_nil _ _ _)

theorem buildVoteCount_ne_nil (vs : List (String × String))
    (hv : ¬ vs = []) : ¬ buildVoteCount vs = [] := by
  cases vs with
  | nil => exact absurd rfl hv
  | cons v rest =>
    unfold buildVoteCount
    rw [List.foldl_cons]
    exact foldl_mset_ne_nil rest _ (mset_ne_nil _ _ _)

/-- The elimination scan starting from accumulator `(m, e)` either keeps it
(when no count beats `m`) or returns the first entry to reach the overall
maximum among those beating `m`. -/
theorem findEliminated_spec (vc : List (String × Nat)) (m : Nat)
    (e : Option String) :
    (vc.foldl (fun acc x => if x.2 > acc.1 then (x.2, some x.1) else acc)
        (m, e) = (m, e) ∧ ∀ x ∈ vc, x.2 ≤ m) ∨
    (∃ i, ∃ hi : i < vc.length,
      vc.foldl (fun acc x => if x.2 > acc.1 then (x.2, some x.1) else acc)
          (m, e)
        = ((vc.get ⟨i, hi⟩).2, some (vc.get ⟨i, hi⟩).1)
      ∧ m < (vc.get ⟨i, hi⟩).2
      ∧ (∀ j, ∀ hj : j < vc.length,
          (vc.get ⟨j, hj⟩).2 ≤ (vc.get ⟨i, hi⟩).2)
      ∧ (∀ j, ∀ hj : j < vc.length, j < i →
          (vc.get ⟨j, hj⟩).2 < (vc.get ⟨i, hi⟩).2)) := by
  induction vc generalizing m e with
  | nil =>
    left
    exact ⟨rfl, by intro x hx; simp at hx⟩
  | cons x rest ih =>
    rw [List.foldl_cons]
    by_cases hx : x.2 > m
    · rw [if_pos hx]
      rcases ih x.2 (some x.1) with ⟨hfold, hle⟩ |
        ⟨i, hi, hfold, hm, hmax, hfirst⟩
      · right
        refine ⟨0, by simp, ?_, hx, ?_, ?_⟩
        · simpa using hfold
        · intro j hj
          cases j with
          | zero => exact le_refl _
          | succ j =>
            simp only [List.get_cons_succ]
            exact hle _ (List.get_mem rest j (Nat.lt_of_succ_lt_succ hj))
        · intro j hj hj0
          exact absurd hj0 (Nat.not_lt_zero j)
      · right
        refine ⟨i + 1, Nat.succ_lt_succ hi, ?_, ?_, ?_, ?_⟩
        · simpa using hfold
        · simp only [List.get_cons_succ]
          exact lt_trans hx hm
        · intro j hj
          cases j with
          | zero =>
            simp only [List.get_cons_zero, List.get_cons_succ]
            exact le_of_lt hm
          | succ j =>
            simp only [List.get_cons_succ]
            exact hmax j (Nat.lt_of_succ_lt_succ hj)
        · intro j hj hji
          cases j with
          | zero =>
            simp only [List.get_cons_zero, List.get_cons_succ]
            exact hm
          | succ j =>
            simp only [List.get_cons_succ]
            exact hfirst j (Nat.lt_of_succ_lt_succ hj)
              (Nat.lt_of_succ_lt_succ hji)
    · rw [if_neg hx]
      have hxle : x.2 ≤ m := Nat.le_of_not_lt hx
      rcases ih m e with ⟨hfold, hle⟩ | ⟨i, hi, hfold, hm, hmax, hfirst⟩
      · left
        refine ⟨hfold, ?_⟩
        intro y hy
        rcases List.mem_cons.mp hy with h | h
        · rw [h]; exact hxle
        · exact hle y h
      · right
        refine ⟨i + 1, Nat.succ_lt_succ hi, ?_, ?_, ?_, ?_⟩
        · simpa using hfold
        · simp only [List.get_cons_succ]
          exact hm
        · intro j hj
          cases j with
          | zero =>
            simp only [List.get_cons_zero, List.get_cons_succ]
            exact le_trans hxle (le_of_lt hm)
          | succ j =>
            simp only [List.get_cons_succ]
            exact hmax j (Nat.lt_of_succ_lt_succ hj)
        · intro j hj hji
          cases j with
          | zero =>
            simp only [List.get_cons_zero, List.get_cons_succ]
            exact lt_of_le_of_lt hxle hm
          | succ j =>
            simp only [List.get_cons_succ]
            exact hfirst j (Nat.lt_of_succ_lt_succ hj)
              (Nat.lt_of_succ_lt_succ hji)

/-! ### Reachability of the concrete traces -/

theorem exS1_reachable : Reachable exS1 :=
  Reachable.init.step (Step.createRoom emptyState "h" "Hana" "ROOM01")

theorem exS3_reachable : Reachable exS3 :=
  (exS1_reachable.step
      (Step.joinRoom exS1 "b" "ROOM01" "Bo")).step
      (Step.joinRoom exS2 "c" "ROOM01" "Cy")

theorem exS4_reachable : Reachable exS4 :=
  exS3_reachable.step
    (Step.startGame exS3 "h" 0 0 (by decide) (by decide))

theorem exS7_reachable : Reachable exS7 :=
  ((exS4_reachable.step
      (Step.playerReady exS4 "h")).step
      (Step.playerReady exS5 "b")).step
      (Step.playerReady exS6 "c")

theorem exS11_reachable : Reachable exS11 :=
  (((exS7_reachable.step
      (Step.submitVote exS7 "h" "b")).step
      (Step.submitVote exS8 "b" "b")).step
      (Step.submitVote exS9 "c" "c")).step
      (Step.nextRound exS10 "h")

theorem exS12_reachable : Reachable exS12 :=
  exS11_reachable.step (Step.joinRoom exS11 "h" "ROOM01" "Hana")

theorem exLeave_reachable : Reachable exLeave :=
  exS4_reachable.step (Step.leaveRoom exS4 "h")

theorem c3S2_reachable : Reachable c3S2 :=
  (Reachable.init.step
    (Step.createRoom emptyState "alice" "Alice" "AAAAAA")).step
    (Step.createRoom c3S1 "bob" "Bob" "AAAAAA")

/-! ### Claim theorems -/

/-- C3 (counterexample): with the registry already holding room "AAAAAA"
(alice's), a second createRoom whose generated code collides silently
replaces that room — alice's room is gone and bob is host of a fresh one —
so "createRoom never overwrites an existing room" is false. -/
theorem createRoom_overwrites_cex :
    Reachable c3S2
    ∧ (mget c3S1.rooms "AAAAAA").map (fun r => r.hostId) = some "alice"
    ∧ (mget c3S2.rooms "AAAAAA").map (fun r => r.hostId) = some "bob"
    ∧ (mget c3S2.rooms "AAAAAA").map (fun r => mget r.players "alice")
        = some none :=
  ⟨c3S2_reachable, by decide, by decide, by decide⟩

/-- C3 (amended): createRoom installs the freshly created room under the
generated code unconditionally — caller as sole member and host, phase
lobby — overwriting whatever room was stored at that code; there is no
collision check or retry. -/
theorem createRoom_installs (st : ServerState)
    (sid playerName roomCode : String) :
    mget (createRoomOp st sid playerName roomCode).rooms roomCode
      = some ⟨roomCode, [(sid, freshPlayer sid playerName roomCode)],
              .lobby, 1, 6, sid, none, [], [], none⟩
    ∧ mget (createRoomOp st sid playerName roomCode).players sid
      = some (freshPlayer sid playerName roomCode) :=
  ⟨mget_mset_self _ _ _, mget_mset_self _ _ _⟩

/-- C6: leaveRoom and disconnect are the same function on the server
state; the departing participant is removed from the index and from the
room, an emptied room is deleted (after which joinRoom with its code fails
with RoomNotFound), and otherwise a departing host hands off to the first
remaining member entry of the room's member map. -/
theorem leave_disconnect_identical :
    (∀ st sid, leaveRoomOp st sid = disconnectOp st sid)
    ∧ (∀ st : ServerState, ∀ sid : String, ∀ {p : Player} {room : Room},
        mget st.players sid = some p →
        mget st.rooms p.room = some room →
        mget (leaveRoomOp st sid).players sid = none
        ∧ ((mdel room.players sid).length = 0 →
            mget (leaveRoomOp st sid).rooms p.room = none
            ∧ ∀ sid2 name2,
                joinRoomOp (leaveRoomOp st sid) sid2 p.room name2
                  = (leaveRoomOp st sid, some .roomNotFound))
        ∧ (¬ (mdel room.players sid).length = 0 →
            ∃ room', mget (leaveRoomOp st sid).rooms p.room = some room'
            ∧ room'.players = mdel room.players sid
            ∧ mget room'.players sid = none
            ∧ ∃ e, (mdel room.players sid).head? = some e
                ∧ room'.hostId
                    = if room.hostId = sid then e.1 else room.hostId)) := by
  constructor
  · intro st sid
    rfl
  · intro st sid p room hp hr
    by_cases hlen : (mdel room.players sid).length = 0
    · have hst : leaveRoomOp st sid
          = ⟨mdel st.rooms p.room, mdel st.players sid⟩ := by
        simp only [leaveRoomOp, hp, hr, if_pos hlen]
      refine ⟨?_, fun _ => ⟨?_, ?_⟩, fun h => absurd hlen h⟩
      · rw [hst]
        simp [mget_mdel]
      · rw [hst]
        simp [mget_mdel]
      · intro sid2 name2
        have : mget (leaveRoomOp st sid).rooms p.room = none := by
          rw [hst]
          simp [mget_mdel]
        simp only [joinRoomOp, this]
    · have hst : leaveRoomOp st sid
          = ⟨mset st.rooms p.room
              { room with players := mdel room.players sid,
                          hostId := if room.hostId = sid
                            then match (mdel room.players sid).head? with
                              | some e => e.1
                              | none => room.hostId
                            else room.hostId },
             mdel st.players sid⟩ := by
        simp only [leaveRoomOp, hp, hr, if_neg hlen]
      refine ⟨?_, fun h => absurd h hlen, fun _ => ?_⟩
      · rw [hst]
        simp [mget_mdel]
      · have hne : ¬ mdel room.players sid = [] := by
          intro h
          exact hlen (by rw [h]; rfl)
        cases hhd : (mdel room.players sid).head? with
        | none => exact absurd (List.head?_eq_none_iff.mp hhd) hne
        | some e =>
          rw [hst]
          refine ⟨_, mget_mset_self _ _ _, rfl, ?_, e, rfl, ?_⟩
          · rw [mget_mdel]
            simp
          · simp only [hhd]

/-- C6 witness: member "c" leaving the reachable three-member room — the
two departure handlers agree and "c" is gone from the index. -/
theorem leave_disconnect_identical_witness :
    leaveRoomOp exS3 "c" = disconnectOp exS3 "c"
    ∧ mget (leaveRoomOp exS3 "c").players "c" = none :=
  ⟨leave_disconnect_identical.1 exS3 "c",
   (leave_disconnect_identical.2 exS3 "c" rfl rfl).1⟩

/-- C7: the snapshot projection copies id/name/readiness/score, withholds
role and word (as null) unless the phase is results or the member's id is
revealed, exposes wordPair only in phase results, and exposes the votes
only as their count. -/
theorem snapshot_projection (st : ServerState) (roomCode : String)
    {room : Room} (hr : mget st.rooms roomCode = some room) :
    ∃ view, getRoomData st roomCode = some view
    ∧ view.players.length = room.players.length
    ∧ (∀ j : Nat, ∀ e, room.players[j]? = some e →
        ∀ pv, view.players[j]? = some pv →
          pv.id = e.2.id ∧ pv.name = e.2.name ∧ pv.isReady = e.2.isReady
          ∧ pv.score = e.2.score
          ∧ (¬ (room.gameState = .results ∨ e.2.id ∈ room.revealedPlayers) →
              pv.role = none ∧ pv.word = none)
          ∧ ((room.gameState = .results ∨ e.2.id ∈ room.revealedPlayers) →
              pv.role = e.2.role ∧ pv.word = e.2.word))
    ∧ (¬ room.gameState = .results → view.wordPair = none)
    ∧ (room.gameState = .results → view.wordPair = room.wordPair)
    ∧ view.votes = room.votes.length := by
  unfold getRoomData
  rw [hr]
  refine ⟨_, rfl, by simp, ?_, ?_, ?_, rfl⟩
  · intro j e hje pv hpv
    rw [List.getElem?_map, hje] at hpv
    rw [Option.map_some'] at hpv
    injection hpv with hpv
    rw [← hpv]
    refine ⟨rfl, rfl, rfl, rfl, fun hc => ⟨if_neg hc, if_neg hc⟩,
      fun hc => ⟨if_pos hc, if_pos hc⟩⟩
  · intro h
    exact if_neg h
  · intro h
    exact if_pos h

/-- C7 witness: the projection applied to the mid-game room of the
concrete trace (phase assigning, three members, nothing revealed). -/
theorem snapshot_projection_witness :
    ∃ view, getRoomData exS4 "ROOM01" = some view
    ∧ view.votes = 0
    ∧ view.players.length = 3 := by
  obtain ⟨view, hv, hlen, hplayers, hwp1, hwp2, hvotes⟩ :=
    snapshot_projection exS4 "ROOM01" rfl
  refine ⟨view, hv, ?_, ?_⟩
  · rw [hvotes]
    decide
  · rw [hlen]
    decide

/-- C8: joinRoom fails with RoomNotFound on an absent code, RoomFull on a
full room, GameInProgress on a non-lobby phase (checked in that order),
each failure leaving the state unchanged; otherwise it succeeds and adds
the caller to the room's members and to the participant index. -/
theorem joinRoom_cases (st : ServerState) (sid roomCode playerName : String) :
    (mget st.rooms roomCode = none →
      joinRoomOp st sid roomCode playerName = (st, some .roomNotFound))
    ∧ (∀ room, mget st.rooms roomCode = some room →
        room.maxPlayers ≤ room.players.length →
        joinRoomOp st sid roomCode playerName = (st, some .roomFull))
    ∧ (∀ room, mget st.rooms roomCode = some room →
        room.players.length < room.maxPlayers →
        ¬ room.gameState = .lobby →
        joinRoomOp st sid roomCode playerName = (st, some .gameInProgress))
    ∧ (∀ room, mget st.rooms roomCode = some room →
        room.players.length < room.maxPlayers →
        room.gameState = .lobby →
        (joinRoomOp st sid roomCode playerName).2 = none
        ∧ ∃ room',
            mget (joinRoomOp st sid roomCode playerName).1.rooms roomCode
              = some room'
            ∧ room'.players = mset room.players sid
                (freshPlayer sid playerName roomCode)
            ∧ mget room'.players sid
              = some (freshPlayer sid playerName roomCode)
            ∧ mget (joinRoomOp st sid roomCode playerName).1.players sid
              = some (freshPlayer sid playerName roomCode))
    ∧ ((joinRoomOp st sid roomCode playerName).2 = none
        ↔ ∃ room, mget st.rooms roomCode = some room
            ∧ room.players.length < room.maxPlayers
            ∧ room.gameState = .lobby) := by
  refine ⟨?_, ?_, ?_, ?_, ?_⟩
  · intro h
    simp only [joinRoomOp, h]
  · intro room h hfull
    simp only [joinRoomOp, h, if_pos hfull]
  · intro room h hlt hphase
    simp only [joinRoomOp, h]
    rw [if_neg (Nat.not_le.mpr hlt), if_pos hphase]
  · intro room h hlt hphase
    refine ⟨?_, ?_⟩
    · simp only [joinRoomOp, h]
      rw [if_neg (Nat.not_le.mpr hlt), if_neg (not_not_intro hphase)]
    · refine ⟨{ room with players := mset room.players sid (freshPlayer sid playerName roomCode) }, ?_, rfl, mget_mset_self _ _ _, ?_⟩
      · simp only [joinRoomOp, h]
        rw [if_neg (Nat.not_le.mpr hlt), if_neg (not_not_intro hphase)]
        exact mget_mset_self _ _ _
      · simp only [joinRoomOp, h]
        rw [if_neg (Nat.not_le.mpr hlt), if_neg (not_not_intro hphase)]
        exact mget_mset_self _ _ _
  · constructor
    · intro h2
      cases hg : mget st.rooms roomCode with
      | none =>
        simp only [joinRoomOp, hg] at h2
        exact Option.noConfusion h2
      | some room =>
        by_cases hfull : room.players.length ≥ room.maxPlayers
        · simp only [joinRoomOp, hg, if_pos hfull] at h2
          exact Option.noConfusion h2
        · by_cases hphase : room.gameState = .lobby
          · exact ⟨room, rfl, Nat.lt_of_not_le hfull, hphase⟩
          · simp only [joinRoomOp, hg] at h2
            rw [if_neg hfull, if_pos hphase] at h2
            exact Option.noConfusion h2
    · rintro ⟨room, hg, hlt, hphase⟩
      simp only [joinRoomOp, hg]
      rw [if_neg (Nat.not_le.mpr hlt), if_neg (not_not_intro hphase)]

/-- C8 witness: a successful concrete join and a RoomNotFound failure. -/
theorem joinRoom_cases_witness :
    (joinRoomOp exS1 "b" "ROOM01" "Bo").2 = none
    ∧ joinRoomOp emptyState "z" "NOPE" "Zed"
        = (emptyState, some .roomNotFound) :=
  ⟨((joinRoom_cases exS1 "b" "ROOM01" "Bo").2.2.2.1 _ rfl (by decide)
      (by decide)).1,
   (joinRoom_cases emptyState "z" "NOPE" "Zed").1 rfl⟩

theorem bS13_reachable : Reachable bS13 :=
  ((((((((((((Reachable.init.step
      (Step.createRoom emptyState "h" "Hana" "CLASH1")).step
      (Step.joinRoom bS1 "p2" "CLASH1" "P2")).step
      (Step.joinRoom bS2 "p3" "CLASH1" "P3")).step
      (Step.joinRoom bS3 "p4" "CLASH1" "P4")).step
      (Step.joinRoom bS4 "p5" "CLASH1" "P5")).step
      (Step.joinRoom bS5 "p6" "CLASH1" "P6")).step
      (Step.createRoom bS6 "x" "Xan" "CLASH1")).step
      (Step.joinRoom bS7 "q2" "CLASH1" "Q2")).step
      (Step.joinRoom bS8 "q3" "CLASH1" "Q3")).step
      (Step.joinRoom bS9 "q4" "CLASH1" "Q4")).step
      (Step.joinRoom bS10 "q5" "CLASH1" "Q5")).step
      (Step.joinRoom bS11 "q6" "CLASH1" "Q6")).step
      (Step.playerReady bS12 "h")

end SignalShadow

namespace SignalShadow

/-- C2 (counterexample): a reachable single-member lobby room is started
by its host — startGame has no phase or three-member floor check, so it is
not a no-op below three members: the phase becomes assigning. -/
theorem startGame_floor_cex :
    Reachable exS1
    ∧ (mget exS1.rooms "ROOM01").map
        (fun r => (r.gameState, r.players.length)) = some (.lobby, 1)
    ∧ (mget (startGameOp exS1 "h" 0 0).rooms "ROOM01").map
        (fun r => r.gameState) = some .assigning
    ∧ ¬ startGameOp exS1 "h" 0 0 = exS1 :=
  ⟨exS1_reachable, by decide, by decide, by decide⟩

/-- C2 (amended): startGame is a no-op unless the caller is a known
participant whose room exists and lists the caller as host — there is no
phase check and no minimum-member check. When the host condition holds it
stores the word pair chosen by the random index, gives the member at the
random index the odd role and word, all others the common role and word,
resets every member's readiness, and sets the phase to assigning. -/
theorem startGame_effects (st : ServerState) (sid : String) (si pi : Nat) :
    (mget st.players sid = none → startGameOp st sid si pi = st)
    ∧ (∀ p, mget st.players sid = some p → mget st.rooms p.room = none →
        startGameOp st sid si pi = st)
    ∧ (∀ p room, mget st.players sid = some p →
        mget st.rooms p.room = some room → ¬ room.hostId = sid →
        startGameOp st sid si pi = st)
    ∧ (∀ p room, mget st.players sid = some p →
        mget st.rooms p.room = some room → room.hostId = sid →
        ∃ room', mget (startGameOp st sid si pi).rooms p.room = some room'
        ∧ room'.gameState = .assigning
        ∧ room'.wordPair = some (WORD_PAIRS.getD pi ⟨"", ""⟩)
        ∧ room'.players.length = room.players.length
        ∧ ∀ j : Nat, room'.players[j]? = (room.players[j]?).map
            (fun e => if j = si
              then shadowify (WORD_PAIRS.getD pi ⟨"", ""⟩) e
              else signalify (WORD_PAIRS.getD pi ⟨"", ""⟩) e)) := by
  refine ⟨?_, ?_, ?_, ?_⟩
  · intro h
    simp only [startGameOp, h]
  · intro p hp hr
    simp only [startGameOp, hp, hr]
  · intro p room hp hr hh
    simp only [startGameOp, hp, hr, if_pos hh]
  · intro p room hp hr hh
    have hst : (startGameOp st sid si pi).rooms
        = mset st.rooms p.room
            { room with wordPair := some (WORD_PAIRS.getD pi ⟨"", ""⟩),
                        gameState := .assigning,
                        players := assignRoles room.players si
                          (WORD_PAIRS.getD pi ⟨"", ""⟩) } := by
      simp only [startGameOp, hp, hr, if_neg (not_not_intro hh)]
    rw [hst]
    refine ⟨_, mget_mset_self _ _ _, rfl, rfl, ?_, ?_⟩
    · exact assignRolesAux_length room.players 0 si _
    · intro j
      have := assignRolesAux_getElem? room.players 0 si
        (WORD_PAIRS.getD pi ⟨"", ""⟩) j
      rw [Nat.zero_add] at this
      exact this

/-- C2 witness: the successful branch applied to the reachable three-member
lobby room. -/
theorem startGame_effects_witness :
    ∃ room', mget (startGameOp exS3 "h" 0 0).rooms "ROOM01" = some room'
    ∧ room'.gameState = .assigning := by
  obtain ⟨room', h1, h2, _⟩ :=
    (startGame_effects exS3 "h" 0 0).2.2.2 _ _ rfl rfl rfl
  exact ⟨room', h1, h2⟩

/-- C1 (counterexample): in a reachable run the room is mid-game (phase
assigning) with exactly one shadow; the shadow leaves, and the room stays
in phase assigning with zero members holding the odd role — the exactly-one
invariant is not preserved by departures. -/
theorem shadow_leaves_cex :
    Reachable exLeave
    ∧ (mget exS4.rooms "ROOM01").map (fun r => (r.gameState,
        r.players.countP (fun e => e.2.role = some Role.shadow)))
      = some (.assigning, 1)
    ∧ leaveRoomOp exS4 "h" = exLeave
    ∧ (mget exLeave.rooms "ROOM01").map (fun r => (r.gameState,
        r.players.countP (fun e => e.2.role = some Role.shadow)))
      = some (.assigning, 0) :=
  ⟨exLeave_reachable, by decide, rfl, by decide⟩

/-- C1 (amended): immediately after any startGame call that passes its
checks (caller known, caller's room exists, caller is host) with the
random member index in range, exactly one member of the room holds the
odd role; the invariant is not necessarily preserved by later operations
(the shadow may leave). -/
theorem startGame_one_shadow (st : ServerState) (sid : String) (si pi : Nat)
    (p : Player) (room : Room) (hp : mget st.players sid = some p)
    (hr : mget st.rooms p.room = some room) (hh : room.hostId = sid)
    (hsi : si < room.players.length) :
    ∃ room', mget (startGameOp st sid si pi).rooms p.room = some room'
    ∧ room'.players.countP (fun e => e.2.role = some Role.shadow) = 1 := by
  have hst : (startGameOp st sid si pi).rooms
      = mset st.rooms p.room
          { room with wordPair := some (WORD_PAIRS.getD pi ⟨"", ""⟩),
                      gameState := .assigning,
                      players := assignRoles room.players si
                        (WORD_PAIRS.getD pi ⟨"", ""⟩) } := by
    simp only [startGameOp, hp, hr, if_neg (not_not_intro hh)]
  rw [hst]
  refine ⟨_, mget_mset_self _ _ _, ?_⟩
  show (assignRolesAux room.players 0 si _).countP _ = 1
  rw [assignRolesAux_shadowCount]
  rw [if_pos ⟨Nat.zero_le si, by rw [Nat.zero_add]; exact hsi⟩]

/-- C1 witness: the amended statement applied to the reachable
three-member room with shadow index 0. -/
theorem startGame_one_shadow_witness :
    ∃ room', mget (startGameOp exS3 "h" 0 0).rooms "ROOM01" = some room'
    ∧ room'.players.countP (fun e => e.2.role = some Role.shadow) = 1 :=
  startGame_one_shadow exS3 "h" 0 0 _ _ rfl rfl rfl (by decide)

/-- C10 (counterexample): the last member readies up in a reachable
assigning-phase room: the room moves to discussion and the votes are
cleared, but readiness is NOT cleared — every member remains marked ready,
contradicting the claimed exit action. -/
theorem ready_not_cleared_cex :
    Reachable exS7
    ∧ (mget exS6.rooms "ROOM01").map (fun r => r.gameState)
      = some .assigning
    ∧ playerReadyOp exS6 "c" = exS7
    ∧ (mget exS7.rooms "ROOM01").map (fun r =>
        (r.gameState, r.votes, r.players.all (fun e => e.2.isReady)))
      = some (.discussion, [], true) :=
  ⟨exS7_reachable, by decide, rfl, by decide⟩

/-- C10 (amended): in phase assigning, a playerReady call that makes every
member ready clears the votes mapping and sets the phase to discussion,
but leaves every member's readiness flag set (readiness is instead reset
by startGame and nextRound). -/
theorem playerReady_all_ready (st : ServerState) (sid : String)
    (p : Player) (room : Room) (hp : mget st.players sid = some p)
    (hr : mget st.rooms p.room = some room)
    (hphase : room.gameState = .assigning)
    (hall : (mset room.players sid { p with isReady := true }).all
        (fun e => e.2.isReady) = true) :
    ∃ room', mget (playerReadyOp st sid).rooms p.room = some room'
    ∧ room'.gameState = .discussion
    ∧ room'.votes = []
    ∧ room'.players.all (fun e => e.2.isReady) = true := by
  have hst : (playerReadyOp st sid).rooms
      = mset st.rooms p.room
          { room with players := mset room.players sid { p with isReady := true },
                      gameState := .discussion, votes := [] } := by
    simp only [playerReadyOp, hp, hr, if_pos hall]
  rw [hst]
  exact ⟨_, mget_mset_self _ _ _, rfl, rfl, hall⟩

/-- C10 witness: the amended statement applied to the reachable state in
which h and b are already ready and c readies up. -/
theorem playerReady_all_ready_witness :
    ∃ room', mget (playerReadyOp exS6 "c").rooms "ROOM01" = some room'
    ∧ room'.gameState = .discussion
    ∧ room'.votes = []
    ∧ room'.players.all (fun e => e.2.isReady) = true :=
  playerReady_all_ready exS6 "c" _ _ rfl rfl (by decide) (by decide)

/-- C9 (counterexample): a reachable state holds a room with 7 members and
capacity 6: after a room-code collision overwrote a full room, a stale
participant's playerReady call re-added them past capacity, so the
capacity invariant does not hold of every reachable state. -/
theorem capacity_exceeded_cex :
    Reachable bS13
    ∧ (mget bS13.rooms "CLASH1").map
        (fun r => (r.players.length, r.maxPlayers)) = some (7, 6)
    ∧ ¬ (∀ code r, mget bS13.rooms code = some r →
          r.players.length ≤ r.maxPlayers) := by
  refine ⟨bS13_reachable, by decide, fun hall => ?_⟩
  have h := hall "CLASH1" _ rfl
  revert h
  decide

/-- C9 (amended): joinRoom itself never pushes a room past capacity — at
capacity it fails with RoomFull, leaving the state (and so the member
count) unchanged; the bound can nevertheless be exceeded when playerReady
re-adds a stale participant after a room-code collision overwrite. -/
theorem joinRoom_capacity (st : ServerState)
    (sid roomCode playerName : String) (room : Room)
    (hr : mget st.rooms roomCode = some room)
    (hfull : room.maxPlayers ≤ room.players.length) :
    joinRoomOp st sid roomCode playerName = (st, some .roomFull) := by
  simp only [joinRoomOp, hr, if_pos hfull]

/-- C9 witness: the seventh join attempt on the full room fails. -/
theorem joinRoom_capacity_witness :
    joinRoomOp bS6 "p7" "CLASH1" "P7" = (bS6, some .roomFull) :=
  joinRoom_capacity bS6 "p7" "CLASH1" "P7" _ rfl (by decide)

end SignalShadow

namespace SignalShadow

/-- C4: the tally is a deterministic function of the votes mapping (the
embedding makes it a pure function of the ordered voter→target list): the
eliminated participant is the target whose count is maximal and which is
the first, in the count map's iteration order (order of first vote
received), to reach that maximum — every earlier entry has a strictly
smaller count — and shadowCaught holds exactly when the eliminated id is
a member whose role is the odd role. -/
theorem calculateResults_tally (room : Room) (hv : ¬ room.votes = []) :
    ∃ res : RoundResults, (calculateResults room).results = some res
    ∧ res.voteCount = buildVoteCount room.votes
    ∧ ∃ i, ∃ hi : i < (buildVoteCount room.votes).length,
        res.eliminatedPlayerId
          = some ((buildVoteCount room.votes).get ⟨i, hi⟩).1
        ∧ (∀ j, ∀ hj : j < (buildVoteCount room.votes).length,
            ((buildVoteCount room.votes).get ⟨j, hj⟩).2
              ≤ ((buildVoteCount room.votes).get ⟨i, hi⟩).2)
        ∧ (∀ j, ∀ hj : j < (buildVoteCount room.votes).length, j < i →
            ((buildVoteCount room.votes).get ⟨j, hj⟩).2
              < ((buildVoteCount room.votes).get ⟨i, hi⟩).2)
        ∧ (res.shadowCaught = true ↔
            ∃ q, mget room.players
                ((buildVoteCount room.votes).get ⟨i, hi⟩).1 = some q
              ∧ q.role = some Role.shadow) := by
  rcases findEliminated_spec (buildVoteCount room.votes) 0 none with
    ⟨hfold, hle⟩ | ⟨i, hi, hfold, hm, hmax, hfirst⟩
  · exfalso
    have hne := buildVoteCount_ne_nil room.votes hv
    cases hbc : buildVoteCount room.votes with
    | nil => exact hne hbc
    | cons x rest =>
      have hx : x ∈ buildVoteCount room.votes := by
        rw [hbc]
        exact List.mem_cons_self x rest
      have h1 := buildVoteCount_pos room.votes x hx
      have h2 := hle x hx
      omega
  · have helim : (findEliminated (buildVoteCount room.votes)).2
        = some ((buildVoteCount room.votes).get ⟨i, hi⟩).1 := by
      unfold findEliminated
      rw [hfold]
    refine ⟨_, rfl, rfl, i, hi, helim, hmax, hfirst, ?_⟩
    cases hq : mget room.players
        ((buildVoteCount room.votes).get ⟨i, hi⟩).1 with
    | none =>
      simp only [helim, hq]
      simp
    | some q =>
      simp only [helim, hq]
      simp

/-- C4 witness: a concrete three-member room with votes a→b, b→b, c→a —
two votes eliminate b, and b is not the shadow. -/
theorem calculateResults_tally_witness :
    ¬ c4Room.votes = []
    ∧ ∃ res, (calculateResults c4Room).results = some res
        ∧ res.voteCount = buildVoteCount c4Room.votes := by
  obtain ⟨res, h1, h2, _⟩ := calculateResults_tally c4Room (by decide)
  exact ⟨by decide, res, h1, h2⟩

end SignalShadow

namespace SignalShadow

/-! ### Helper lemmas for the structural invariant and score monotonicity -/

theorem assignRolesAux_mget_room (ps : List (String × Player)) (i si : Nat)
    (wp : WordPair) (k : String) :
    (mget (assignRolesAux ps i si wp) k).map (fun p => p.room)
      = (mget ps k).map (fun p => p.room) := by
  induction ps generalizing i with
  | nil => rfl
  | cons e rest ih =>
    simp only [assignRolesAux]
    have h1 : (if i = si then shadowify wp e else signalify wp e).1
        = e.1 := by
      by_cases hc : i = si <;> simp [hc, shadowify, signalify]
    have h2 : (if i = si then shadowify wp e else signalify wp e).2.room
        = e.2.room := by
      by_cases hc : i = si <;> simp [hc, shadowify, signalify]
    rw [mget_cons, mget_cons, h1]
    by_cases he : e.1 = k
    · simp [he, h2]
    · simp [he, ih]

theorem scoreUpd_score_le (sc : Bool) (p : Player) :
    p.score ≤ (scoreUpd sc p).score := by
  unfold scoreUpd
  split_ifs <;> simp

theorem scoreUpd_room (sc : Bool) (p : Player) :
    (scoreUpd sc p).room = p.room := by
  unfold scoreUpd
  split_ifs <;> rfl

theorem scoresMono_of_rooms_eq (st st' : ServerState)
    (h : st'.rooms = st.rooms) : scoresMono st st' := by
  intro code room room' sid p p' h1 h2 h3 h4
  rw [h] at h2
  have hroom : room = room' := Option.some.inj (h1.symm.trans h2)
  subst hroom
  have hp : p = p' := Option.some.inj (h3.symm.trans h4)
  subst hp
  exact Nat.le_refl _

theorem scoresMono_mset (st : ServerState) (g : List (String × Player))
    (code0 : String) (room0 room0' : Room)
    (hr : mget st.rooms code0 = some room0)
    (hsc : ∀ sid p p', mget room0.players sid = some p →
        mget room0'.players sid = some p' → p.score ≤ p'.score) :
    scoresMono st ⟨mset st.rooms code0 room0', g⟩ := by
  intro code room room' sid p p' h1 h2 h3 h4
  by_cases hc : code = code0
  · rw [hc] at h1 h2
    rw [hr] at h1
    have hroom : room = room0 := (Option.some.inj h1).symm
    have h2' : mget (mset st.rooms code0 room0') code0 = some room' := h2
    rw [mget_mset_self] at h2'
    have hroom' : room' = room0' := (Option.some.inj h2').symm
    subst hroom
    subst hroom'
    exact hsc sid p p' h3 h4
  · have h2' : mget st.rooms code = some room' := by
      have := mget_mset_ne st.rooms code0 code room0' hc
      exact this ▸ h2
    have hroom : room = room' := Option.some.inj (h1.symm.trans h2')
    subst hroom
    have hp : p = p' := Option.some.inj (h3.symm.trans h4)
    subst hp
    exact Nat.le_refl _

theorem stInv_empty : StInv emptyState := by
  constructor
  · intro code room h
    exact Option.noConfusion h
  · intro k gp h
    exact Option.noConfusion h

/-- Generic preservation step: the state replaces the room at `code0` by
`R` and the index by `g'`. -/
theorem stInv_update (st : ServerState) (hinv : StInv st) (code0 : String)
    (R : Room) (g' : List (String × Player))
    (hkeys : keysND R.players)
    (hroomfield : ∀ k q, mget R.players k = some q → q.room = code0)
    (hsync : ∀ k gp, mget g' k = some gp →
      (gp.room = code0 → ∀ q, mget R.players k = some q → q = gp)
      ∧ (¬ gp.room = code0 → ∀ room, mget st.rooms gp.room = some room →
          ∀ q, mget room.players k = some q → q = gp)) :
    StInv ⟨mset st.rooms code0 R, g'⟩ := by
  obtain ⟨hrooms, _⟩ := hinv
  constructor
  · intro code room hroom
    by_cases hc : code = code0
    · rw [hc] at hroom ⊢
      have : mget (mset st.rooms code0 R) code0 = some room := hroom
      rw [mget_mset_self] at this
      have hR : room = R := (Option.some.inj this).symm
      subst hR
      exact ⟨hkeys, hroomfield⟩
    · have : mget st.rooms code = some room := by
        have h := mget_mset_ne st.rooms code0 code R hc
        exact h ▸ hroom
      exact hrooms code room this
  · intro k gp hgp room hroom q hq
    by_cases hc : gp.room = code0
    · have : mget (mset st.rooms code0 R) code0 = some room := hc ▸ hroom
      rw [mget_mset_self] at this
      have hR : room = R := (Option.some.inj this).symm
      subst hR
      exact (hsync k gp hgp).1 hc q hq
    · have : mget st.rooms gp.room = some room := by
        have h := mget_mset_ne st.rooms code0 gp.room R hc
        exact h ▸ hroom
      exact (hsync k gp hgp).2 hc room this q hq

end SignalShadow

namespace SignalShadow

theorem calculateResults_shape (room : Room) :
    ∃ sc : Bool, ∃ res, (calculateResults room).results = some res
    ∧ res.shadowCaught = sc
    ∧ (calculateResults room).players
        = room.players.map (fun e => (e.1, scoreUpd sc e.2)) :=
  ⟨_, _, rfl, rfl, rfl⟩

/-- Preservation for handlers that update one room without touching any
member object (phase, votes, reveal set, host). -/
theorem stInv_roomTweak (st : ServerState) (hinv : StInv st)
    (code0 : String) (room0 R : Room)
    (hr : mget st.rooms code0 = some room0)
    (hpl : R.players = room0.players) :
    StInv ⟨mset st.rooms code0 R, st.players⟩ := by
  obtain ⟨hrooms, hsync⟩ := hinv
  apply stInv_update st ⟨hrooms, hsync⟩ code0 R st.players
  · rw [hpl]
    exact (hrooms code0 room0 hr).1
  · intro k q hq
    rw [hpl] at hq
    exact (hrooms code0 room0 hr).2 k q hq
  · intro k gp hgp
    constructor
    · intro hc q hq
      rw [hpl] at hq
      refine hsync k gp hgp room0 ?_ q hq
      rw [hc]
      exact hr
    · intro hc room hroom q hq
      exact hsync k gp hgp room hroom q hq

/-- Preservation for handlers that mutate every member object of one room
in place with a room-preserving function and propagate through the
aliasing index (`calculateResults` under `submitVote`, `nextRound`). -/
theorem stInv_mapSync (st : ServerState) (hinv : StInv st) (code0 : String)
    (room0 : Room) (hr : mget st.rooms code0 = some room0) (R : Room)
    (f : Player → Player) (hfroom : ∀ p, (f p).room = p.room)
    (hpl : R.players = room0.players.map (fun e => (e.1, f e.2))) :
    StInv ⟨mset st.rooms code0 R, syncIndex st.players code0 R.players⟩ := by
  obtain ⟨hrooms, hsync⟩ := hinv
  have hRfield : ∀ k q, mget R.players k = some q → q.room = code0 := by
    intro k q hq
    rw [hpl, mget_mapVal] at hq
    cases hq0 : mget room0.players k with
    | none =>
      rw [hq0] at hq
      exact Option.noConfusion hq
    | some q0 =>
      rw [hq0] at hq
      have hfq : f q0 = q := Option.some.inj hq
      rw [← hfq, hfroom]
      exact (hrooms code0 room0 hr).2 k q0 hq0
  apply stInv_update st ⟨hrooms, hsync⟩ code0 R _ ?_ hRfield ?_
  · rw [hpl]
    exact keysND_mapDep (fun _ v => f v) room0.players
      (hrooms code0 room0 hr).1
  · intro k gp hgp
    rw [mget_syncIndex] at hgp
    cases hg0 : mget st.players k with
    | none =>
      rw [hg0] at hgp
      exact Option.noConfusion hgp
    | some gp0 =>
      rw [hg0] at hgp
      have hgp' : syncVal R.players code0 k gp0 = gp := Option.some.inj hgp
      by_cases hc0 : gp0.room = code0
      · cases hRk : mget R.players k with
        | some v =>
          have hv : gp = v := by
            rw [← hgp']
            unfold syncVal
            rw [if_pos hc0, hRk]
          constructor
          · intro hc q hq
            rw [hv]
            exact (Option.some.inj hq).symm
          · intro hc room hroom q hq
            exfalso
            apply hc
            rw [hv]
            exact hRfield k v hRk
        | none =>
          have hv : gp = gp0 := by
            rw [← hgp']
            unfold syncVal
            rw [if_pos hc0, hRk]
          constructor
          · intro hc q hq
            exact Option.noConfusion hq
          · intro hc room hroom q hq
            exfalso
            apply hc
            rw [hv]
            exact hc0
      · have hv : gp = gp0 := by
          rw [← hgp']
          unfold syncVal
          rw [if_neg hc0]
        constructor
        · intro hc q hq
          rw [hv] at hc
          exact absurd hc hc0
        · intro hc room hroom q hq
          rw [hv] at hroom ⊢
          exact hsync k gp0 hg0 room hroom q hq

end SignalShadow

namespace SignalShadow

theorem stInv_createRoom (st : ServerState) (hinv : StInv st)
    (sid playerName roomCode : String) :
    StInv (createRoomOp st sid playerName roomCode) := by
  obtain ⟨hrooms, hsync⟩ := hinv
  have hstate : createRoomOp st sid playerName roomCode
      = ⟨mset st.rooms roomCode
           ⟨roomCode, [(sid, freshPlayer sid playerName roomCode)], .lobby,
            1, 6, sid, none, [], [], none⟩,
         mset st.players sid (freshPlayer sid playerName roomCode)⟩ := rfl
  rw [hstate]
  constructor
  · intro code room hroom
    by_cases hc : code = roomCode
    · rw [hc] at hroom ⊢
      rw [mget_mset_self] at hroom
      have hR := (Option.some.inj hroom).symm
      subst hR
      constructor
      · simp [keysND]
      · intro k q hq
        rw [mget_cons] at hq
        by_cases hk : sid = k
        · rw [if_pos hk] at hq
          rw [← Option.some.inj hq]
          rfl
        · rw [if_neg hk] at hq
          exact Option.noConfusion hq
    · rw [mget_mset_ne _ _ _ _ hc] at hroom
      exact hrooms code room hroom
  · intro k gp hgp room hroom q hq
    by_cases hk : k = sid
    · rw [hk] at hgp hq
      rw [mget_mset_self] at hgp
      have hgpv := (Option.some.inj hgp).symm
      have hgroom : gp.room = roomCode := by
        rw [hgpv]
        rfl
      rw [hgroom] at hroom
      rw [mget_mset_self] at hroom
      have hR := (Option.some.inj hroom).symm
      subst hR
      rw [mget_cons] at hq
      simp only [if_pos rfl] at hq
      rw [← Option.some.inj hq, hgpv]
    · rw [mget_mset_ne _ _ _ _ hk] at hgp
      by_cases hc : gp.room = roomCode
      · rw [hc] at hroom
        rw [mget_mset_self] at hroom
        have hR := (Option.some.inj hroom).symm
        subst hR
        rw [mget_cons] at hq
        rw [if_neg (fun h : sid = k => hk h.symm)] at hq
        exact Option.noConfusion hq
      · rw [mget_mset_ne _ _ _ _ hc] at hroom
        exact hsync k gp hgp room hroom q hq

theorem stInv_joinRoom (st : ServerState) (hinv : StInv st)
    (sid roomCode playerName : String) :
    StInv (joinRoomOp st sid roomCode playerName).1 := by
  cases hg : mget st.rooms roomCode with
  | none =>
    have : (joinRoomOp st sid roomCode playerName).1 = st := by
      simp only [joinRoomOp, hg]
    rw [this]
    exact hinv
  | some room0 =>
    by_cases hfull : room0.players.length ≥ room0.maxPlayers
    · have : (joinRoomOp st sid roomCode playerName).1 = st := by
        simp only [joinRoomOp, hg, if_pos hfull]
      rw [this]
      exact hinv
    · by_cases hphase : room0.gameState = .lobby
      · have hstate : (joinRoomOp st sid roomCode playerName).1
            = ⟨mset st.rooms roomCode { room0 with players := mset room0.players sid (freshPlayer sid playerName roomCode) },
               mset st.players sid (freshPlayer sid playerName roomCode)⟩ := by
          simp only [joinRoomOp, hg]
          rw [if_neg hfull, if_neg (not_not_intro hphase)]
        rw [hstate]
        obtain ⟨hrooms, hsync⟩ := hinv
        apply stInv_update st ⟨hrooms, hsync⟩ roomCode _ _
        · exact keysND_mset _ _ _ (hrooms roomCode room0 hg).1
        · intro k q hq
          rw [mget_mset] at hq
          by_cases hk : k = sid
          · rw [if_pos hk] at hq
            rw [← Option.some.inj hq]
            rfl
          · rw [if_neg hk] at hq
            exact (hrooms roomCode room0 hg).2 k q hq
        · intro k gp hgp
          rw [mget_mset] at hgp
          by_cases hk : k = sid
          · rw [if_pos hk] at hgp
            have hgpv := (Option.some.inj hgp).symm
            constructor
            · intro hc q hq
              rw [hk] at hq
              rw [mget_mset_self] at hq
              rw [← Option.some.inj hq, hgpv]
            · intro hc room hroom q hq
              exfalso
              apply hc
              rw [hgpv]
              rfl
          · rw [if_neg hk] at hgp
            constructor
            · intro hc q hq
              rw [mget_mset_ne _ _ _ _ hk] at hq
              refine hsync k gp hgp room0 ?_ q hq
              rw [hc]
              exact hg
            · intro hc room hroom q hq
              exact hsync k gp hgp room hroom q hq
      · have : (joinRoomOp st sid roomCode playerName).1 = st := by
          simp only [joinRoomOp, hg]
          rw [if_neg hfull, if_pos hphase]
        rw [this]
        exact hinv

end SignalShadow

namespace SignalShadow

theorem stInv_startGame (st : ServerState) (hinv : StInv st) (sid : String)
    (si pi : Nat) : StInv (startGameOp st sid si pi) := by
  cases hp : mget st.players sid with
  | none =>
    have : startGameOp st sid si pi = st := by
      simp only [startGameOp, hp]
    rw [this]
    exact hinv
  | some player =>
    cases hr : mget st.rooms player.room with
    | none =>
      have : startGameOp st sid si pi = st := by
        simp only [startGameOp, hp, hr]
      rw [this]
      exact hinv
    | some room0 =>
      by_cases hh : room0.hostId = sid
      · have hstate : startGameOp st sid si pi
            = ⟨mset st.rooms player.room
                 { room0 with wordPair := some (WORD_PAIRS.getD pi ⟨"", ""⟩),
                              gameState := .assigning,
                              players := assignRoles room0.players si (WORD_PAIRS.getD pi ⟨"", ""⟩) },
               (assignRoles room0.players si (WORD_PAIRS.getD pi ⟨"", ""⟩)).foldl
                 (fun g e => mset g e.1 e.2) st.players⟩ := by
          simp only [startGameOp, hp, hr, if_neg (not_not_intro hh)]
        rw [hstate]
        obtain ⟨hrooms, hsync⟩ := hinv
        have hkeys0 := (hrooms player.room room0 hr).1
        have hfield0 := (hrooms player.room room0 hr).2
        have hkeysNew : keysND (assignRoles room0.players si
            (WORD_PAIRS.getD pi ⟨"", ""⟩)) := by
          unfold keysND assignRoles
          rw [assignRolesAux_keys]
          exact hkeys0
        have hfieldNew : ∀ k q, mget (assignRoles room0.players si
            (WORD_PAIRS.getD pi ⟨"", ""⟩)) k = some q → q.room = player.room := by
          intro k q hq
          unfold assignRoles at hq
          have hmap := assignRolesAux_mget_room room0.players 0 si
            (WORD_PAIRS.getD pi ⟨"", ""⟩) k
          rw [hq] at hmap
          cases hq0 : mget room0.players k with
          | none =>
            rw [hq0] at hmap
            exact Option.noConfusion hmap
          | some q0 =>
            rw [hq0] at hmap
            have : q.room = q0.room := Option.some.inj hmap
            rw [this]
            exact hfield0 k q0 hq0
        apply stInv_update st ⟨hrooms, hsync⟩ player.room _ _ hkeysNew
          hfieldNew
        intro k gp hgp
        rw [mget_foldl_mset _ _ _ hkeysNew] at hgp
        cases hnk : mget (assignRoles room0.players si
            (WORD_PAIRS.getD pi ⟨"", ""⟩)) k with
        | some v =>
          rw [hnk] at hgp
          have hv : gp = v := (Option.some.inj hgp).symm
          constructor
          · intro hc q hq
            rw [hv]
            exact (Option.some.inj hq).symm
          · intro hc room hroom q hq
            exfalso
            apply hc
            rw [hv]
            exact hfieldNew k v hnk
        | none =>
          rw [hnk] at hgp
          have hgp' : mget st.players k = some gp := hgp
          constructor
          · intro hc q hq
            exact Option.noConfusion hq
          · intro hc room hroom q hq
            exact hsync k gp hgp' room hroom q hq
      · have : startGameOp st sid si pi = st := by
          simp only [startGameOp, hp, hr, if_pos hh]
        rw [this]
        exact hinv

theorem stInv_playerReady (st : ServerState) (hinv : StInv st)
    (sid : String) : StInv (playerReadyOp st sid) := by
  cases hp : mget st.players sid with
  | none =>
    have : playerReadyOp st sid = st := by
      simp only [playerReadyOp, hp]
    rw [this]
    exact hinv
  | some player =>
    cases hr : mget st.rooms player.room with
    | none =>
      have : playerReadyOp st sid = st := by
        simp only [playerReadyOp, hp, hr]
      rw [this]
      exact hinv
    | some room0 =>
      obtain ⟨hrooms, hsync⟩ := hinv
      have hcommon : ∀ R : Room,
          R.players = mset room0.players sid { player with isReady := true } →
          StInv ⟨mset st.rooms player.room R,
                 mset st.players sid { player with isReady := true }⟩ := by
        intro R hRpl
        apply stInv_update st ⟨hrooms, hsync⟩ player.room R _
        · rw [hRpl]
          exact keysND_mset _ _ _ (hrooms player.room room0 hr).1
        · intro k q hq
          rw [hRpl, mget_mset] at hq
          by_cases hk : k = sid
          · rw [if_pos hk] at hq
            rw [← Option.some.inj hq]
          · rw [if_neg hk] at hq
            exact (hrooms player.room room0 hr).2 k q hq
        · intro k gp hgp
          rw [mget_mset] at hgp
          by_cases hk : k = sid
          · rw [if_pos hk] at hgp
            have hgpv := (Option.some.inj hgp).symm
            constructor
            · intro hc q hq
              rw [hRpl, hk, mget_mset_self] at hq
              rw [← Option.some.inj hq, hgpv]
            · intro hc room hroom q hq
              exfalso
              apply hc
              rw [hgpv]
          · rw [if_neg hk] at hgp
            constructor
            · intro hc q hq
              rw [hRpl, mget_mset_ne _ _ _ _ hk] at hq
              refine hsync k gp hgp room0 ?_ q hq
              rw [hc]
              exact hr
            · intro hc room hroom q hq
              exact hsync k gp hgp room hroom q hq
      by_cases hall : (mset room0.players sid
          { player with isReady := true }).all (fun e => e.2.isReady)
      · have hstate : playerReadyOp st sid
            = ⟨mset st.rooms player.room
                 { room0 with players := mset room0.players sid { player with isReady := true },
                              gameState := .discussion, votes := [] },
               mset st.players sid { player with isReady := true }⟩ := by
          simp only [playerReadyOp, hp, hr, if_pos hall]
        rw [hstate]
        exact hcommon _ rfl
      · have hstate : playerReadyOp st sid
            = ⟨mset st.rooms player.room
                 { room0 with players := mset room0.players sid { player with isReady := true } },
               mset st.players sid { player with isReady := true }⟩ := by
          simp only [playerReadyOp, hp, hr, if_neg hall]
        rw [hstate]
        exact hcommon _ rfl

end SignalShadow

namespace SignalShadow

theorem stInv_submitVote (st : ServerState) (hinv : StInv st)
    (sid targetId : String) : StInv (submitVoteOp st sid targetId) := by
  cases hp : mget st.players sid with
  | none =>
    have : submitVoteOp st sid targetId = st := by
      simp only [submitVoteOp, hp]
    rw [this]
    exact hinv
  | some player =>
    cases hr : mget st.rooms player.room with
    | none =>
      have : submitVoteOp st sid targetId = st := by
        simp only [submitVoteOp, hp, hr]
      rw [this]
      exact hinv
    | some room0 =>
      by_cases hphase : room0.gameState = .discussion
      · by_cases hfull : (mset room0.votes sid targetId).length
            = room0.players.length
        · have hstate : submitVoteOp st sid targetId
              = ⟨mset st.rooms player.room
                   (calculateResults { room0 with votes := mset room0.votes sid targetId, gameState := .results }),
                 syncIndex st.players player.room
                   (calculateResults { room0 with votes := mset room0.votes sid targetId, gameState := .results }).players⟩ := by
            simp only [submitVoteOp, hp, hr, if_neg (not_not_intro hphase),
              if_pos hfull]
          rw [hstate]
          obtain ⟨sc, res, hres, hscEq, hplEq⟩ := calculateResults_shape
            { room0 with votes := mset room0.votes sid targetId,
                         gameState := .results }
          exact stInv_mapSync st hinv player.room room0 hr _ (scoreUpd sc)
            (scoreUpd_room sc) hplEq
        · have hstate : submitVoteOp st sid targetId
              = ⟨mset st.rooms player.room
                   { room0 with votes := mset room0.votes sid targetId },
                 st.players⟩ := by
            simp only [submitVoteOp, hp, hr, if_neg (not_not_intro hphase),
              if_neg hfull]
          rw [hstate]
          exact stInv_roomTweak st hinv player.room room0 _ hr rfl
      · have : submitVoteOp st sid targetId = st := by
          simp only [submitVoteOp, hp, hr, if_pos hphase]
        rw [this]
        exact hinv

theorem stInv_nextRound (st : ServerState) (hinv : StInv st) (sid : String) :
    StInv (nextRoundOp st sid) := by
  cases hp : mget st.players sid with
  | none =>
    have : nextRoundOp st sid = st := by
      simp only [nextRoundOp, hp]
    rw [this]
    exact hinv
  | some player =>
    cases hr : mget st.rooms player.room with
    | none =>
      have : nextRoundOp st sid = st := by
        simp only [nextRoundOp, hp, hr]
      rw [this]
      exact hinv
    | some room0 =>
      by_cases hh : room0.hostId = sid
      · have hstate : nextRoundOp st sid
            = ⟨mset st.rooms player.room
                 { room0 with round := room0.round + 1, gameState := .lobby,
                              revealedPlayers := [], votes := [],
                              players := room0.players.map (fun e => (e.1, resetPlayer e.2)) },
               syncIndex st.players player.room
                 (room0.players.map (fun e => (e.1, resetPlayer e.2)))⟩ := by
          simp only [nextRoundOp, hp, hr, if_neg (not_not_intro hh)]
        rw [hstate]
        exact stInv_mapSync st hinv player.room room0 hr _ resetPlayer
          (fun p => rfl) rfl
      · have : nextRoundOp st sid = st := by
          simp only [nextRoundOp, hp, hr, if_pos hh]
        rw [this]
        exact hinv

theorem stInv_revealRole (st : ServerState) (hinv : StInv st)
    (sid targetId : String) : StInv (revealRoleOp st sid targetId) := by
  cases hp : mget st.players sid with
  | none =>
    have : revealRoleOp st sid targetId = st := by
      simp only [revealRoleOp, hp]
    rw [this]
    exact hinv
  | some player =>
    cases hr : mget st.rooms player.room with
    | none =>
      have : revealRoleOp st sid targetId = st := by
        simp only [revealRoleOp, hp, hr]
      rw [this]
      exact hinv
    | some room0 =>
      by_cases hh : room0.hostId = sid
      · have hstate : revealRoleOp st sid targetId
            = ⟨mset st.rooms player.room
                 { room0 with revealedPlayers := sadd room0.revealedPlayers targetId },
               st.players⟩ := by
          simp only [revealRoleOp, hp, hr, if_neg (not_not_intro hh)]
        rw [hstate]
        exact stInv_roomTweak st hinv player.room room0 _ hr rfl
      · have : revealRoleOp st sid targetId = st := by
          simp only [revealRoleOp, hp, hr, if_pos hh]
        rw [this]
        exact hinv

theorem stInv_leaveRoom (st : ServerState) (hinv : StInv st) (sid : String) :
    StInv (leaveRoomOp st sid) := by
  cases hp : mget st.players sid with
  | none =>
    have : leaveRoomOp st sid = st := by
      simp only [leaveRoomOp, hp]
    rw [this]
    exact hinv
  | some player =>
    cases hr : mget st.rooms player.room with
    | none =>
      have : leaveRoomOp st sid = st := by
        simp only [leaveRoomOp, hp, hr]
      rw [this]
      exact hinv
    | some room0 =>
      obtain ⟨hrooms, hsync⟩ := hinv
      by_cases hlen : (mdel room0.players sid).length = 0
      · have hstate : leaveRoomOp st sid
            = ⟨mdel st.rooms player.room, mdel st.players sid⟩ := by
          simp only [leaveRoomOp, hp, hr, if_pos hlen]
        rw [hstate]
        constructor
        · intro code room hroom
          rw [mget_mdel] at hroom
          by_cases hc : code = player.room
          · rw [if_pos hc] at hroom
            exact Option.noConfusion hroom
          · rw [if_neg hc] at hroom
            exact hrooms code room hroom
        · intro k gp hgp room hroom q hq
          rw [mget_mdel] at hgp
          by_cases hk : k = sid
          · rw [if_pos hk] at hgp
            exact Option.noConfusion hgp
          · rw [if_neg hk] at hgp
            rw [mget_mdel] at hroom
            by_cases hc : gp.room = player.room
            · rw [if_pos hc] at hroom
              exact Option.noConfusion hroom
            · rw [if_neg hc] at hroom
              exact hsync k gp hgp room hroom q hq
      · have hstate : leaveRoomOp st sid
            = ⟨mset st.rooms player.room
                 { room0 with players := mdel room0.players sid,
                              hostId := if room0.hostId = sid then match (mdel room0.players sid).head? with | some e => e.1 | none => room0.hostId else room0.hostId },
               mdel st.players sid⟩ := by
          simp only [leaveRoomOp, hp, hr, if_neg hlen]
        rw [hstate]
        apply stInv_update st ⟨hrooms, hsync⟩ player.room _ _
        · exact keysND_mdel _ _ (hrooms player.room room0 hr).1
        · intro k q hq
          rw [mget_mdel] at hq
          by_cases hk : k = sid
          · rw [if_pos hk] at hq
            exact Option.noConfusion hq
          · rw [if_neg hk] at hq
            exact (hrooms player.room room0 hr).2 k q hq
        · intro k gp hgp
          rw [mget_mdel] at hgp
          by_cases hk : k = sid
          · rw [if_pos hk] at hgp
            exact Option.noConfusion hgp
          · rw [if_neg hk] at hgp
            constructor
            · intro hc q hq
              rw [mget_mdel, if_neg hk] at hq
              refine hsync k gp hgp room0 ?_ q hq
              rw [hc]
              exact hr
            · intro hc room hroom q hq
              exact hsync k gp hgp room hroom q hq

theorem stInv_disconnect (st : ServerState) (hinv : StInv st)
    (sid : String) : StInv (disconnectOp st sid) := by
  have h : disconnectOp st sid = leaveRoomOp st sid := rfl
  rw [h]
  exact stInv_leaveRoom st hinv sid

theorem step_stInv {st st' : ServerState} (hinv : StInv st)
    (h : Step st st') : StInv st' := by
  cases h with
  | createRoom sid playerName roomCode =>
    exact stInv_createRoom st hinv sid playerName roomCode
  | joinRoom sid roomCode playerName =>
    exact stInv_joinRoom st hinv sid roomCode playerName
  | startGame sid si pi hsi hpi => exact stInv_startGame st hinv sid si pi
  | playerReady sid => exact stInv_playerReady st hinv sid
  | submitVote sid targetId => exact stInv_submitVote st hinv sid targetId
  | nextRound sid => exact stInv_nextRound st hinv sid
  | revealRole sid targetId => exact stInv_revealRole st hinv sid targetId
  | leaveRoom sid => exact stInv_leaveRoom st hinv sid
  | disconnect sid => exact stInv_disconnect st hinv sid

theorem reachable_stInv {st : ServerState} (h : Reachable st) : StInv st := by
  induction h with
  | init => exact stInv_empty
  | step hr hs ih => exact step_stInv ih hs

end SignalShadow

namespace SignalShadow

theorem scoresMono_startGame (st : ServerState) (sid : String)
    (si pi : Nat) : scoresMono st (startGameOp st sid si pi) := by
  cases hp : mget st.players sid with
  | none =>
    have h : startGameOp st sid si pi = st := by
      simp only [startGameOp, hp]
    rw [h]
    exact scoresMono_of_rooms_eq st st rfl
  | some player =>
    cases hr : mget st.rooms player.room with
    | none =>
      have h : startGameOp st sid si pi = st := by
        simp only [startGameOp, hp, hr]
      rw [h]
      exact scoresMono_of_rooms_eq st st rfl
    | some room0 =>
      by_cases hh : room0.hostId = sid
      · have hstate : startGameOp st sid si pi
            = ⟨mset st.rooms player.room
                 { room0 with wordPair := some (WORD_PAIRS.getD pi ⟨"", ""⟩),
                              gameState := .assigning,
                              players := assignRoles room0.players si (WORD_PAIRS.getD pi ⟨"", ""⟩) },
               (assignRoles room0.players si (WORD_PAIRS.getD pi ⟨"", ""⟩)).foldl
                 (fun g e => mset g e.1 e.2) st.players⟩ := by
          simp only [startGameOp, hp, hr, if_neg (not_not_intro hh)]
        rw [hstate]
        apply scoresMono_mset st _ player.room room0 _ hr
        intro sid2 p p' h3 h4
        have hmap := assignRolesAux_mget_score room0.players 0 si
          (WORD_PAIRS.getD pi ⟨"", ""⟩) sid2
        have h4' : mget (assignRolesAux room0.players 0 si
            (WORD_PAIRS.getD pi ⟨"", ""⟩)) sid2 = some p' := h4
        rw [h4', h3] at hmap
        have h5 : p'.score = p.score := Option.some.inj hmap
        exact Nat.le_of_eq h5.symm
      · have h : startGameOp st sid si pi = st := by
          simp only [startGameOp, hp, hr, if_pos hh]
        rw [h]
        exact scoresMono_of_rooms_eq st st rfl

theorem scoresMono_playerReady (st : ServerState) (hinv : StInv st)
    (sid : String) : scoresMono st (playerReadyOp st sid) := by
  cases hp : mget st.players sid with
  | none =>
    have h : playerReadyOp st sid = st := by
      simp only [playerReadyOp, hp]
    rw [h]
    exact scoresMono_of_rooms_eq st st rfl
  | some player =>
    cases hr : mget st.rooms player.room with
    | none =>
      have h : playerReadyOp st sid = st := by
        simp only [playerReadyOp, hp, hr]
      rw [h]
      exact scoresMono_of_rooms_eq st st rfl
    | some room0 =>
      obtain ⟨hrooms, hsync⟩ := hinv
      have hsc : ∀ sid2 p p', mget room0.players sid2 = some p →
          mget (mset room0.players sid { player with isReady := true }) sid2
            = some p' → p.score ≤ p'.score := by
        intro sid2 p p' h3 h4
        rw [mget_mset] at h4
        by_cases hk : sid2 = sid
        · rw [if_pos hk] at h4
          rw [hk] at h3
          have hp' := (Option.some.inj h4).symm
          have hpp : p = player := hsync sid player hp room0 hr p h3
          rw [hp', hpp]
        · rw [if_neg hk] at h4
          have : p = p' := Option.some.inj (h3.symm.trans h4)
          rw [this]
      by_cases hall : (mset room0.players sid
          { player with isReady := true }).all (fun e => e.2.isReady)
      · have hstate : playerReadyOp st sid
            = ⟨mset st.rooms player.room
                 { room0 with players := mset room0.players sid { player with isReady := true },
                              gameState := .discussion, votes := [] },
               mset st.players sid { player with isReady := true }⟩ := by
          simp only [playerReadyOp, hp, hr, if_pos hall]
        rw [hstate]
        exact scoresMono_mset st _ player.room room0 _ hr hsc
      · have hstate : playerReadyOp st sid
            = ⟨mset st.rooms player.room
                 { room0 with players := mset room0.players sid { player with isReady := true } },
               mset st.players sid { player with isReady := true }⟩ := by
          simp only [playerReadyOp, hp, hr, if_neg hall]
        rw [hstate]
        exact scoresMono_mset st _ player.room room0 _ hr hsc

theorem scoresMono_submitVote (st : ServerState) (sid targetId : String) :
    scoresMono st (submitVoteOp st sid targetId) := by
  cases hp : mget st.players sid with
  | none =>
    have h : submitVoteOp st sid targetId = st := by
      simp only [submitVoteOp, hp]
    rw [h]
    exact scoresMono_of_rooms_eq st st rfl
  | some player =>
    cases hr : mget st.rooms player.room with
    | none =>
      have h : submitVoteOp st sid targetId = st := by
        simp only [submitVoteOp, hp, hr]
      rw [h]
      exact scoresMono_of_rooms_eq st st rfl
    | some room0 =>
      by_cases hphase : room0.gameState = .discussion
      · by_cases hfull : (mset room0.votes sid targetId).length
            = room0.players.length
        · have hstate : submitVoteOp st sid targetId
              = ⟨mset st.rooms player.room
                   (calculateResults { room0 with votes := mset room0.votes sid targetId, gameState := .results }),
                 syncIndex st.players player.room
                   (calculateResults { room0 with votes := mset room0.votes sid targetId, gameState := .results }).players⟩ := by
            simp only [submitVoteOp, hp, hr, if_neg (not_not_intro hphase),
              if_pos hfull]
          rw [hstate]
          apply scoresMono_mset st _ player.room room0 _ hr
          intro sid2 p p' h3 h4
          obtain ⟨sc, res, hres, hscEq, hplEq⟩ := calculateResults_shape
            { room0 with votes := mset room0.votes sid targetId,
                         gameState := .results }
          rw [hplEq, mget_mapVal] at h4
          have h3' : mget ({ room0 with votes := mset room0.votes sid targetId, gameState := .results } : Room).players sid2 = some p := h3
          rw [h3'] at h4
          have : scoreUpd sc p = p' := Option.some.inj h4
          rw [← this]
          exact scoreUpd_score_le sc p
        · have hstate : submitVoteOp st sid targetId
              = ⟨mset st.rooms player.room
                   { room0 with votes := mset room0.votes sid targetId },
                 st.players⟩ := by
            simp only [submitVoteOp, hp, hr, if_neg (not_not_intro hphase),
              if_neg hfull]
          rw [hstate]
          apply scoresMono_mset st _ player.room room0 _ hr
          intro sid2 p p' h3 h4
          have : p = p' := Option.some.inj (h3.symm.trans h4)
          rw [this]
      · have h : submitVoteOp st sid targetId = st := by
          simp only [submitVoteOp, hp, hr, if_pos hphase]
        rw [h]
        exact scoresMono_of_rooms_eq st st rfl

theorem scoresMono_nextRound (st : ServerState) (sid : String) :
    scoresMono st (nextRoundOp st sid) := by
  cases hp : mget st.players sid with
  | none =>
    have h : nextRoundOp st sid = st := by
      simp only [nextRoundOp, hp]
    rw [h]
    exact scoresMono_of_rooms_eq st st rfl
  | some player =>
    cases hr : mget st.rooms player.room with
    | none =>
      have h : nextRoundOp st sid = st := by
        simp only [nextRoundOp, hp, hr]
      rw [h]
      exact scoresMono_of_rooms_eq st st rfl
    | some room0 =>
      by_cases hh : room0.hostId = sid
      · have hstate : nextRoundOp st sid
            = ⟨mset st.rooms player.room
                 { room0 with round := room0.round + 1, gameState := .lobby,
                              revealedPlayers := [], votes := [],
                              players := room0.players.map (fun e => (e.1, resetPlayer e.2)) },
               syncIndex st.players player.room
                 (room0.players.map (fun e => (e.1, resetPlayer e.2)))⟩ := by
          simp only [nextRoundOp, hp, hr, if_neg (not_not_intro hh)]
        rw [hstate]
        apply scoresMono_mset st _ player.room room0 _ hr
        intro sid2 p p' h3 h4
        have h4' : mget (room0.players.map
            (fun e => (e.1, resetPlayer e.2))) sid2 = some p' := h4
        rw [mget_mapVal, h3] at h4'
        have h6 : resetPlayer p = p' := Option.some.inj h4'
        have h5 : p'.score = p.score := by
          rw [← h6]
          rfl
        exact Nat.le_of_eq h5.symm
      · have h : nextRoundOp st sid = st := by
          simp only [nextRoundOp, hp, hr, if_pos hh]
        rw [h]
        exact scoresMono_of_rooms_eq st st rfl

theorem scoresMono_revealRole (st : ServerState) (sid targetId : String) :
    scoresMono st (revealRoleOp st sid targetId) := by
  cases hp : mget st.players sid with
  | none =>
    have h : revealRoleOp st sid targetId = st := by
      simp only [revealRoleOp, hp]
    rw [h]
    exact scoresMono_of_rooms_eq st st rfl
  | some player =>
    cases hr : mget st.rooms player.room with
    | none =>
      have h : revealRoleOp st sid targetId = st := by
        simp only [revealRoleOp, hp, hr]
      rw [h]
      exact scoresMono_of_rooms_eq st st rfl
    | some room0 =>
      by_cases hh : room0.hostId = sid
      · have hstate : revealRoleOp st sid targetId
            = ⟨mset st.rooms player.room
                 { room0 with revealedPlayers := sadd room0.revealedPlayers targetId },
               st.players⟩ := by
          simp only [revealRoleOp, hp, hr, if_neg (not_not_intro hh)]
        rw [hstate]
        apply scoresMono_mset st _ player.room room0 _ hr
        intro sid2 p p' h3 h4
        have : p = p' := Option.some.inj (h3.symm.trans h4)
        rw [this]
      · have h : revealRoleOp st sid targetId = st := by
          simp only [revealRoleOp, hp, hr, if_pos hh]
        rw [h]
        exact scoresMono_of_rooms_eq st st rfl

theorem scoresMono_leaveRoom (st : ServerState) (sid : String) :
    scoresMono st (leaveRoomOp st sid) := by
  cases hp : mget st.players sid with
  | none =>
    have h : leaveRoomOp st sid = st := by
      simp only [leaveRoomOp, hp]
    rw [h]
    exact scoresMono_of_rooms_eq st st rfl
  | some player =>
    cases hr : mget st.rooms player.room with
    | none =>
      have h : leaveRoomOp st sid = st := by
        simp only [leaveRoomOp, hp, hr]
      rw [h]
      exact scoresMono_of_rooms_eq st st rfl
    | some room0 =>
      by_cases hlen : (mdel room0.players sid).length = 0
      · have hstate : leaveRoomOp st sid
            = ⟨mdel st.rooms player.room, mdel st.players sid⟩ := by
          simp only [leaveRoomOp, hp, hr, if_pos hlen]
        rw [hstate]
        intro code room room' sid2 p p' h1 h2 h3 h4
        have h2' : mget (mdel st.rooms player.room) code = some room' := h2
        rw [mget_mdel] at h2'
        by_cases hc : code = player.room
        · rw [if_pos hc] at h2'
          exact Option.noConfusion h2'
        · rw [if_neg hc] at h2'
          have hroom : room = room' := Option.some.inj (h1.symm.trans h2')
          subst hroom
          have hpp : p = p' := Option.some.inj (h3.symm.trans h4)
          rw [hpp]
      · have hstate : leaveRoomOp st sid
            = ⟨mset st.rooms player.room
                 { room0 with players := mdel room0.players sid,
                              hostId := if room0.hostId = sid then match (mdel room0.players sid).head? with | some e => e.1 | none => room0.hostId else room0.hostId },
               mdel st.players sid⟩ := by
          simp only [leaveRoomOp, hp, hr, if_neg hlen]
        rw [hstate]
        apply scoresMono_mset st _ player.room room0 _ hr
        intro sid2 p p' h3 h4
        have h4' : mget (mdel room0.players sid) sid2 = some p' := h4
        rw [mget_mdel] at h4'
        by_cases hk : sid2 = sid
        · rw [if_pos hk] at h4'
          exact Option.noConfusion h4'
        · rw [if_neg hk] at h4'
          have : p = p' := Option.some.inj (h3.symm.trans h4')
          rw [this]

theorem scoresMono_disconnect (st : ServerState) (sid : String) :
    scoresMono st (disconnectOp st sid) := by
  have h : disconnectOp st sid = leaveRoomOp st sid := rfl
  rw [h]
  exact scoresMono_leaveRoom st sid

theorem nonJoinStep_scoresMono (st st' : ServerState) (hreach : Reachable st)
    (hstep : NonJoinStep st st') : scoresMono st st' := by
  cases hstep with
  | startGame sid si pi hsi hpi => exact scoresMono_startGame st sid si pi
  | playerReady sid =>
    exact scoresMono_playerReady st (reachable_stInv hreach) sid
  | submitVote sid targetId => exact scoresMono_submitVote st sid targetId
  | nextRound sid => exact scoresMono_nextRound st sid
  | revealRole sid targetId => exact scoresMono_revealRole st sid targetId
  | leaveRoom sid => exact scoresMono_leaveRoom st sid
  | disconnect sid => exact scoresMono_disconnect st sid

end SignalShadow

namespace SignalShadow

/-- C5 (counterexample): scores can decrease. In a reachable run, member h
holds 200 points after winning a round (shadow not caught); h then calls
joinRoom for the same room, which replaces h's Participant record and
resets the score to 0 — so "no operation ever decreases any member's
score" is false. -/
theorem score_decrease_cex :
    Reachable exS11
    ∧ ((mget exS11.rooms "ROOM01").bind (fun r => mget r.players "h")).map
        (fun p => p.score) = some 200
    ∧ exS12 = (joinRoomOp exS11 "h" "ROOM01" "Hana").1
    ∧ ((mget exS12.rooms "ROOM01").bind (fun r => mget r.players "h")).map
        (fun p => p.score) = some 0 :=
  ⟨exS11_reachable, by decide, rfl, by decide⟩

/-- C5 (amended): after a tally, every common-role-holder gains exactly
100 when the shadow was caught, the odd-role-holder gains exactly 200 when
not, and every other member's score is unchanged; and no operation other
than createRoom and joinRoom (which replace an existing member's record,
resetting the score to 0) ever decreases any member's score from a
reachable state. -/
theorem scoring_rules :
    (∀ room : Room, ∀ sid p, mget room.players sid = some p →
      ∃ res p', (calculateResults room).results = some res
        ∧ mget (calculateResults room).players sid = some p'
        ∧ p'.score = p.score +
            (if res.shadowCaught = true ∧ p.role = some Role.signal then 100
             else if res.shadowCaught = false ∧ p.role = some Role.shadow
             then 200 else 0))
    ∧ (∀ st st', Reachable st → NonJoinStep st st' → scoresMono st st') := by
  constructor
  · intro room sid p hp
    obtain ⟨sc, res, hres, hscEq, hplEq⟩ := calculateResults_shape room
    refine ⟨res, scoreUpd sc p, hres, ?_, ?_⟩
    · rw [hplEq, mget_mapVal, hp]
      rfl
    · rw [hscEq]
      cases sc with
      | false =>
        by_cases h2 : p.role = some Role.shadow
        · simp [scoreUpd, h2]
        · simp [scoreUpd, h2]
      | true =>
        by_cases h1 : p.role = some Role.signal
        · simp [scoreUpd, h1]
        · simp [scoreUpd, h1]
  · exact fun st st' hreach hstep => nonJoinStep_scoresMono st st' hreach hstep

/-- C5 witness: the tally clause applied to the concrete room (shadow "a"
not caught, so "a" gains 200), and the monotonicity clause applied to a
reachable playerReady step. -/
theorem scoring_rules_witness :
    (∃ res p', (calculateResults c4Room).results = some res
      ∧ mget (calculateResults c4Room).players "a" = some p'
      ∧ p'.score = 200)
    ∧ scoresMono exS4 (playerReadyOp exS4 "h") := by
  constructor
  · obtain ⟨res, p', h1, h2, h3⟩ := scoring_rules.1 c4Room "a"
      ⟨"a", "Ann", "TALLY1", some .shadow, some "Vampire", false, 0⟩ rfl
    refine ⟨res, p', h1, h2, ?_⟩
    rw [h3]
    have hres : res.shadowCaught = false := by
      have h1' : (calculateResults c4Room).results = some res := h1
      have : (calculateResults c4Room).results
          = some ⟨some "b", false, [("b", 2), ("a", 1)]⟩ := by decide
      rw [this] at h1'
      rw [← Option.some.inj h1']
    rw [hres]
    decide
  · exact scoring_rules.2 exS4 (playerReadyOp exS4 "h") exS4_reachable
      (NonJoinStep.playerReady exS4 "h")

end SignalShadow
